import Mathlib

/-!
Shallow embedding of the WrenAI LLM configuration subsystem.

The embedding covers:
* the document data model (`Doc`, `ModelEntry`) for the multi-document
  configuration file, with JavaScript object fields modelled as `Option`
  fields (a `none` field is an absent key);
* `maskSecrets` and `chooseEnvVarName` from the resolver module;
* the secrets file machinery (`writeEnvVar`): JS string splitting on
  the regex newline pattern, JS `trim`, `KEY=VALUE` parsing with insertion
  ordered upsert, and serialization, all over `List Char`;
* `ConfigService.readConfig` / `ConfigService.writeConfig` over an explicit
  filesystem state (an association list from path strings to parsed
  document lists; YAML serialization is modelled as the identity so a file
  holds its parsed document list directly);
* the resolver operations `getLLMConfig`, `updateLLMConfig`,
  `testLLMConnection` (up to the network boundary: the model records which
  probe would be issued instead of performing I/O) and `switchLLMNow`
  (the runtime adaptor is modelled by a behaviour parameter).

Failure injection: `World.envWriteOk` models whether a write to the
secrets file succeeds, and `World.migrateOk` models whether the migration
file operations inside `readConfig` succeed (the source swallows those
errors).
-/

/-- JS truthiness of an optional string field: the field is present and
the string is nonempty. -/
def isTruthy : Option String → Bool
  | none => false
  | some s => s ≠ ""

/-- JS `a.includes(b)` on strings: `b` occurs as a contiguous substring
of `a`. -/
def jsIncludes (s sub : String) : Bool := decide (List.IsInfix sub.toList s.toList)

/-- JS `toLowerCase`, restricted to the ASCII case mapping. -/
def jsToLower (s : String) : String := String.mk (s.toList.map Char.toLower)

/-- One element of the `models` array of an llm entry. -/
structure ModelEntry where
  model : Option String := none
  api_key : Option String := none
  apiKey : Option String := none
  key : Option String := none
  secret : Option String := none
  password : Option String := none
  token : Option String := none
deriving DecidableEq

/-- One configuration document (one YAML document of the multi-document
stream).  Fields the subsystem reads are modelled explicitly; `none`
means the key is absent from the object. -/
structure Doc where
  type : Option String := none
  provider : Option String := none
  api_base : Option String := none
  api_version : Option String := none
  api_key : Option String := none
  apiKey : Option String := none
  api_key_env : Option String := none
  active_model : Option String := none
  persistKey : Option Bool := none
  models : Option (List ModelEntry) := none
  key : Option String := none
  secret : Option String := none
  password : Option String := none
  token : Option String := none
deriving DecidableEq

/-- Mask one secret-shaped value: `if (obj[k]) obj[k] = MASK`. -/
def maskVal (v : Option String) : Option String :=
  if isTruthy v then some "*****" else v

/-- Mask the secret-shaped fields of one element of `models`. -/
def maskModelEntry (m : ModelEntry) : ModelEntry :=
  { m with
    api_key := maskVal m.api_key
    apiKey := maskVal m.apiKey
    key := maskVal m.key
    secret := maskVal m.secret
    password := maskVal m.password
    token := maskVal m.token }

/-- The `maskSecrets` function of the resolver module: deep copy, mask the
fixed secret key set inside each element of `models` and at the top level.
The model is a pure function, so the "never mutates the input" part of the
source contract holds by construction. -/
def maskSecrets (d : Doc) : Doc :=
  let withModels :=
    match d.models with
    | some ms => { d with models := some (ms.map maskModelEntry) }
    | none => d
  { withModels with
    api_key := maskVal withModels.api_key
    apiKey := maskVal withModels.apiKey
    key := maskVal withModels.key
    secret := maskVal withModels.secret
    password := maskVal withModels.password
    token := maskVal withModels.token }

/-- The lower-cased provider string: `(doc.provider || "").toString().toLowerCase()`. -/
def providerLower (d : Doc) : String := jsToLower (d.provider.getD "")

/-- The Azure detection condition shared by `chooseEnvVarName` and the
connectivity tester: provider contains "azure", or `api_version` is truthy,
or `api_base` is truthy and contains the Azure OpenAI domain. -/
def azureCond (d : Doc) : Bool :=
  jsIncludes (providerLower d) "azure" || isTruthy d.api_version ||
    (isTruthy d.api_base && jsIncludes (d.api_base.getD "") ".openai.azure.com")

/-- The `chooseEnvVarName` function of the resolver module. -/
def chooseEnvVarName (d : Doc) : String :=
  if azureCond d then "AZURE_OPENAI_API_KEY"
  else if jsIncludes (providerLower d) "deepseek" then "DEEPSEEK_API_KEY"
  else if jsIncludes (providerLower d) "openrouter" then "OPENROUTER_API_KEY"
  else if jsIncludes (providerLower d) "ollama" then "OLLAMA_API_KEY"
  else if jsIncludes (providerLower d) "google" || jsIncludes (providerLower d) "vertex" then
    "GOOGLE_API_KEY"
  else "OPENAI_API_KEY"

/-! Secrets file machinery (`writeEnvVar` in the resolver module).
The file content is modelled as `List Char`. -/

/-- JS whitespace test covering the ASCII whitespace characters relevant to
`String.prototype.trim` for this subsystem. -/
def isWsChar (c : Char) : Bool := c = ' ' || c = '\t' || c = '\n' || c = '\r'

/-- JS `trim`: drop whitespace from both ends. -/
def jsTrim (l : List Char) : List Char :=
  ((l.dropWhile isWsChar).reverse.dropWhile isWsChar).reverse

/-- Split a character list at every newline character.  The result always
has one more piece than the number of newline characters. -/
def splitOnNl : List Char → List (List Char)
  | [] => [[]]
  | c :: cs =>
    match splitOnNl cs with
    | [] => [[]]
    | l :: ls => if c = '\n' then [] :: l :: ls else (c :: l) :: ls

/-- Drop a single trailing carriage return, if present. -/
def stripCR (l : List Char) : List Char :=
  if l.getLast? = some '\r' then l.dropLast else l

/-- Apply a function to every element of a list except the last one. -/
def mapInit (f : α → α) : List α → List α
  | [] => []
  | [a] => [a]
  | a :: b :: rest => f a :: mapInit f (b :: rest)

/-- JS `content.split(/\r?\n/)`: split at newlines, where a carriage return
immediately preceding a newline is consumed by the separator. -/
def jsSplitLines (content : List Char) : List (List Char) :=
  mapInit stripCR (splitOnNl content)

/-- Parse one line of the secrets file.  Comment lines (first non-blank
character `#`) yield nothing; otherwise the line must contain `=` at an
index greater than zero, and the key and value are the trimmed pieces on
either side of the first `=`. -/
def parseEnvLine (line : List Char) : Option (List Char × List Char) :=
  if (jsTrim line).head? = some '#' then none
  else
    let idx := (line.takeWhile (fun c => c ≠ '=')).length
    if 0 < idx ∧ idx < line.length then
      some (jsTrim (line.take idx), jsTrim (line.drop (idx + 1)))
    else none

/-- Insertion-ordered upsert on an association list, matching assignment to
a JS object key: an existing key keeps its position and gets the new value,
a new key is appended at the end. -/
def setKV (kv : List (List Char × List Char)) (k v : List Char) :
    List (List Char × List Char) :=
  match kv with
  | [] => [(k, v)]
  | (k0, v0) :: rest => if k0 = k then (k0, v) :: rest else (k0, v0) :: setKV rest k v

/-- First-match lookup on an association list (JS object key read). -/
def getKV (kv : List (List Char × List Char)) (k : List Char) : Option (List Char) :=
  match kv with
  | [] => none
  | (k0, v) :: rest => if k0 = k then some v else getKV rest k

/-- Fold the parsed lines into a key-value object. -/
def parseEnvLines (lines : List (List Char)) (kv : List (List Char × List Char)) :
    List (List Char × List Char) :=
  match lines with
  | [] => kv
  | line :: rest =>
    match parseEnvLine line with
    | some (k, v) => parseEnvLines rest (setKV kv k v)
    | none => parseEnvLines rest kv

/-- The full parse of a secrets file content: split into lines, drop empty
lines (the JS `filter(Boolean)`), then fold `KEY=VALUE` lines into an
object. -/
def parseEnvContent (content : List Char) : List (List Char × List Char) :=
  parseEnvLines ((jsSplitLines content).filter (fun l => l ≠ [])) []

/-- Serialize the key-value object back to file content:
entries joined by single newlines, each rendered as `KEY=VALUE`. -/
def serializeEnv : List (List Char × List Char) → List Char
  | [] => []
  | [(k, v)] => k ++ '=' :: v
  | (k, v) :: p :: rest => k ++ '=' :: v ++ '\n' :: serializeEnv (p :: rest)

/-- The pure content transformation performed by `writeEnvVar`: parse the
existing content, upsert the given key, and serialize everything back. -/
def writeEnvVarContent (varName value : List Char) (content : List Char) : List Char :=
  serializeEnv (setKV (parseEnvContent content) varName value)

/-- The `writeEnvVar` file operation on an optional file: a missing or
unreadable file is treated as empty content. -/
def writeEnvVarFile (varName value : List Char) (file : Option (List Char)) : List Char :=
  writeEnvVarContent varName value (file.getD [])

/-! Well-formedness of secrets-file keys and values, and the round trip
between `parseEnvContent` and `serializeEnv`. -/

/-- A well-formed secrets key: nonempty, trimmed, without newline or the
separator character, and not starting with the comment character. -/
def EnvKeyWF (k : List Char) : Prop :=
  k ≠ [] ∧ jsTrim k = k ∧ '\n' ∉ k ∧ '=' ∉ k ∧ k.head? ≠ some '#'

/-- A well-formed secrets value: trimmed and without newline. -/
def EnvValWF (v : List Char) : Prop := jsTrim v = v ∧ '\n' ∉ v

instance (k : List Char) : Decidable (EnvKeyWF k) := by
  unfold EnvKeyWF
  infer_instance

instance (v : List Char) : Decidable (EnvValWF v) := by
  unfold EnvValWF
  infer_instance

/-- Every entry has a well-formed (or empty) key and a well-formed value. -/
def KVEntriesGood (kv : List (List Char × List Char)) : Prop :=
  ∀ p ∈ kv, (p.1 = [] ∨ EnvKeyWF p.1) ∧ EnvValWF p.2

/-- Keys are pairwise distinct and all entries are good. -/
def KVGood (kv : List (List Char × List Char)) : Prop :=
  (kv.map Prod.fst).Nodup ∧ KVEntriesGood kv

/-- The serialized form of one entry. -/
def envLine (p : List Char × List Char) : List Char := p.1 ++ '=' :: p.2

/-- The keys produced by parsing a list of lines, in order. -/
def lineKeys (ls : List (List Char)) : List (List Char) :=
  ls.filterMap (fun l => (parseEnvLine l).map Prod.fst)

/-- The full line-level parsing pipeline: drop empty lines, fold the rest. -/
def parseEnvLinesAll (ls : List (List Char)) : List (List Char × List Char) :=
  parseEnvLines (ls.filter (fun l => l ≠ [])) []

/-! Filesystem model and `ConfigService` (readConfig, writeConfig).
Paths are strings; a configuration file stores its parsed document list
directly (YAML serialization is modelled as the identity). -/

/-- The configuration filesystem: an association list from paths to
parsed document lists. -/
abbrev Fs := List (String × List Doc)

def fsLookup (fs : Fs) (p : String) : Option (List Doc) :=
  match fs with
  | [] => none
  | (q, d) :: rest => if q = p then some d else fsLookup rest p

def fsSet (fs : Fs) (p : String) (d : List Doc) : Fs :=
  match fs with
  | [] => [(p, d)]
  | (q, d0) :: rest => if q = p then (q, d) :: rest else (q, d0) :: fsSet rest p d

def fsDelete (fs : Fs) (p : String) : Fs :=
  fs.filter (fun e => e.1 ≠ p)

/-- The mutable state the subsystem touches: the configuration filesystem,
the secrets file content, and failure-injection flags for the two file
writes whose errors the source handles specially («writeEnvVar» fails the
whole update, migration failures are swallowed). -/
structure World where
  fs : Fs
  envFile : List Char
  envWriteOk : Bool
  migrateOk : Bool
deriving DecidableEq

/-- Ambient process parameters: `PROJECT_CONFIG_PATH`, the working
directory and the home directory. -/
structure Params where
  projectConfigPath : Option String
  cwd : String
  home : String
deriving DecidableEq

/-- The `PROJECT_CONFIG_PATH` value after the JS truthiness test (an empty
string is falsy). -/
def envPathTruthy (P : Params) : Option String :=
  match P.projectConfigPath with
  | some s => if s = "" then none else some s
  | none => none

/-- The canonical user-level configuration path `~/.wrenai/config.yaml`. -/
def homedirConfig (P : Params) : String := P.home ++ "/.wrenai/config.yaml"

/-- `DEFAULT_CONFIG_PATH = process.env.PROJECT_CONFIG_PATH || path.join(process.cwd(), "config.yaml")`. -/
def defaultConfigPath (P : Params) : String :=
  (envPathTruthy P).getD (P.cwd ++ "/config.yaml")

/-- The project-root-parent fallback path. -/
def parentConfigPath (P : Params) : String := P.cwd ++ "/../config.yaml"

/-- The candidate list probed by `readConfig`, in order: explicit
override, user-level path, `DEFAULT_CONFIG_PATH`, parent fallback (the
falsy override is removed by `filter(Boolean)`). -/
def candidates (P : Params) : List String :=
  match envPathTruthy P with
  | some e => [e, homedirConfig P, defaultConfigPath P, parentConfigPath P]
  | none => [homedirConfig P, defaultConfigPath P, parentConfigPath P]

/-- The default document synthesized when no candidate file exists. -/
def defaultDocs : List Doc :=
  [{ type := some "llm", provider := some "openai",
     api_base := some "https://api.openai.com/v1",
     models := some [{ model := some "gpt-4o-mini" }],
     active_model := some "gpt-4o-mini" }]

/-- Probe the candidates in order and return the first readable file. -/
def findCandidate (fs : Fs) : List String → Option (String × List Doc)
  | [] => none
  | p :: rest =>
    match fsLookup fs p with
    | some docs => some (p, docs)
    | none => findCandidate fs rest

/-- `ConfigService.readConfig`: probe the candidates; on success from
`DEFAULT_CONFIG_PATH` with no user-level config present, migrate (copy the
content verbatim to the user-level path, then delete the source file),
swallowing migration failures; if nothing is readable, synthesize and
persist the default document at the user-level path. -/
def readConfig (P : Params) (w : World) : World × List Doc :=
  match findCandidate w.fs (candidates P) with
  | some (p, docs) =>
    if p = defaultConfigPath P ∧ fsLookup w.fs (homedirConfig P) = none then
      if w.migrateOk then
        ({ w with fs := fsDelete (fsSet w.fs (homedirConfig P) docs) (defaultConfigPath P) },
         docs)
      else (w, docs)
    else (w, docs)
  | none => ({ w with fs := fsSet w.fs (homedirConfig P) defaultDocs }, defaultDocs)

/-- Errors surfaced by the subsystem. -/
inductive CfgError where
  | unauthorized
  | secretPersist
  | noLLMDoc
deriving DecidableEq

/-- `ConfigService.writeConfig`: fail fast when no llm-typed document is
present, otherwise overwrite the canonical user-level path with the full
document set. -/
def writeConfig (P : Params) (docs : List Doc) (w : World) : World × Except CfgError Unit :=
  if docs.any (fun d => d.type == some "llm") then
    ({ w with fs := fsSet w.fs (homedirConfig P) docs }, Except.ok ())
  else (w, Except.error CfgError.noLLMDoc)

/-! The resolver operations (`ConfigResolver`). -/

/-- The key value the update carries: `incoming.api_key || incoming.apiKey`
under JS truthiness. -/
def keyValOf (d : Doc) : Option String :=
  if isTruthy d.api_key then d.api_key
  else if isTruthy d.apiKey then d.apiKey
  else none

/-- The sanitization applied when `persistKey === false`: delete both raw
key fields and the `api_key_env` reference. -/
def sanitizeNoPersist (d : Doc) : Doc :=
  { d with api_key := none, apiKey := none, api_key_env := none }

/-- JS object spread `{...d, ...incoming}`: a field of `incoming` wins
when present, otherwise the field of `d` is kept. -/
def mergeDocs (d incoming : Doc) : Doc :=
  { type := incoming.type <|> d.type
    provider := incoming.provider <|> d.provider
    api_base := incoming.api_base <|> d.api_base
    api_version := incoming.api_version <|> d.api_version
    api_key := incoming.api_key <|> d.api_key
    apiKey := incoming.apiKey <|> d.apiKey
    api_key_env := incoming.api_key_env <|> d.api_key_env
    active_model := incoming.active_model <|> d.active_model
    persistKey := incoming.persistKey <|> d.persistKey
    models := incoming.models <|> d.models
    key := incoming.key <|> d.key
    secret := incoming.secret <|> d.secret
    password := incoming.password <|> d.password
    token := incoming.token <|> d.token }

/-- The merge used by `updateLLMConfig` on each llm-typed document: the
spread merge, then the explicit `active_model` preservation line of the
source (`if (incoming.active_model === undefined && d.active_model) ...`). -/
def mergeLLM (d incoming : Doc) : Doc :=
  let merged := mergeDocs d incoming
  if incoming.active_model = none ∧ isTruthy d.active_model then
    { merged with active_model := d.active_model }
  else merged

/-- The read-merge-write tail of `updateLLMConfig`, shared by all
non-aborting sanitization paths: read the current documents, merge the
sanitized update into every llm-typed document (appending it when none
exists), and write the result. -/
def updateMergeAndWrite (P : Params) (incoming : Doc) (w : World) :
    World × Except CfgError Doc :=
  let rd := readConfig P w
  let docs := rd.2
  let hasReplaced := docs.any (fun d => d.type == some "llm")
  let mapped := docs.map (fun d => if d.type == some "llm" then mergeLLM d incoming else d)
  let newDocs := if hasReplaced then mapped else mapped ++ [incoming]
  let wr := writeConfig P newDocs rd.1
  (wr.1, wr.2.map (fun _ => incoming))

/-- `ConfigResolver.updateLLMConfig`: admin gate; `persistKey === false`
strips raw keys and the env reference; otherwise a provided raw key is
written to the secrets file (aborting the whole update on failure) and
replaced by an `api_key_env` reference; then merge and persist. -/
def updateLLMConfig (P : Params) (isAdmin : Bool) (data : Doc) (w : World) :
    World × Except CfgError Doc :=
  if !isAdmin then (w, Except.error CfgError.unauthorized)
  else if data.persistKey = some false then
    updateMergeAndWrite P (sanitizeNoPersist data) w
  else
    match keyValOf data with
    | none => updateMergeAndWrite P data w
    | some kv =>
      if w.envWriteOk then
        updateMergeAndWrite P
          { data with api_key_env := some (chooseEnvVarName data),
                      api_key := none, apiKey := none }
          { w with envFile :=
              writeEnvVarContent (chooseEnvVarName data).toList kv.toList w.envFile }
      else (w, Except.error CfgError.secretPersist)

/-- `ConfigResolver.getLLMConfig`: read, filter to llm-typed documents
(falling back to all documents when none match), mask each. -/
def getLLMConfig (P : Params) (w : World) : World × List Doc :=
  let rd := readConfig P w
  let llmDocs := rd.2.filter (fun d => d.type == some "llm")
  (rd.1, (if llmDocs.isEmpty then rd.2 else llmDocs).map maskSecrets)

/-- The behaviour of the runtime adaptor collaborator during one
`switchLLMNow` call. -/
inductive AdaptorBehavior where
  | missing
  | noCapability
  | throws (msg : String)
  | succeeds
deriving DecidableEq

/-- The structured result of `switchLLMNow` and of the probe dispatch. -/
structure OpResult where
  ok : Bool
  error : Option String := none
deriving DecidableEq

/-- The document handed to the runtime adaptor by `switchLLMNow`: the
current llm entry (or a fresh `{type: llm}` object) with the update
assigned onto it (`Object.assign`, a plain shallow merge). -/
def switchMergedDoc (P : Params) (data : Doc) (w : World) : Doc :=
  let rd := readConfig P w
  let llmDoc := (rd.2.find? (fun d => d.type == some "llm")).getD { type := some "llm" }
  mergeDocs llmDoc data

/-- `ConfigResolver.switchLLMNow`: admin gate; read the documents, merge
the update in memory only, call the adaptor; adaptor absence, missing
capability and thrown errors all become structured `{ok: false}` results. -/
def switchLLMNow (P : Params) (isAdmin : Bool) (data : Doc) (adaptor : AdaptorBehavior)
    (w : World) : World × Except CfgError OpResult :=
  if !isAdmin then (w, Except.error CfgError.unauthorized)
  else
    let rd := readConfig P w
    let _ := switchMergedDoc P data w
    match adaptor with
    | AdaptorBehavior.succeeds => (rd.1, Except.ok { ok := true })
    | AdaptorBehavior.missing =>
      (rd.1, Except.ok { ok := false, error := some "Adaptor does not support reinitialization" })
    | AdaptorBehavior.noCapability =>
      (rd.1, Except.ok { ok := false, error := some "Adaptor does not support reinitialization" })
    | AdaptorBehavior.throws msg => (rd.1, Except.ok { ok := false, error := some msg })

/-- One JS truthy-or step on optional strings (`a || b`, normalized to
`none` when both are falsy only at the end of the chain). -/
def jsOr (a b : Option String) : Option String := if isTruthy a then a else b

/-- Key resolution of `testLLMConnection`: payload raw key, then the
environment variable named by `api_key_env`, then the fixed fallback list
Azure, OpenAI, Deepseek, OpenRouter; a falsy result counts as absent. -/
def resolveTestApiKey (data : Doc) (env : String → Option String) : Option String :=
  let k1 := keyValOf data
  let k2 := jsOr k1 (if isTruthy data.api_key_env then env (data.api_key_env.getD "") else none)
  let k3 := jsOr k2 (jsOr (env "AZURE_OPENAI_API_KEY") (jsOr (env "OPENAI_API_KEY")
    (jsOr (env "DEEPSEEK_API_KEY") (env "OPENROUTER_API_KEY"))))
  if isTruthy k3 then k3 else none

/-- The provider families the tester dispatches to. -/
inductive ProbeKind where
  | azure
  | openrouter
  | ollama
  | deepseek
  | generic
deriving DecidableEq

/-- The outcome of `testLLMConnection`, cut at the network boundary:
either an early structured failure with no request issued, or exactly one
provider-specific HTTP probe carrying the resolved key and base URL. -/
inductive TestOutcome where
  | fail (r : OpResult)
  | probe (kind : ProbeKind) (apiKey : String) (apiBase : String)
deriving DecidableEq

/-- `ConfigResolver.testLLMConnection` up to the network boundary. -/
def testLLMConnection (data : Doc) (env : String → Option String) : TestOutcome :=
  let provider := jsToLower (data.provider.getD "")
  let apiBase :=
    if isTruthy data.api_base then data.api_base.getD "" else "https://api.openai.com/v1"
  match resolveTestApiKey data env with
  | none =>
    TestOutcome.fail { ok := false, error := some "No API key provided or found in environment" }
  | some key =>
    if jsIncludes provider "azure" || isTruthy data.api_version ||
        jsIncludes apiBase ".openai.azure.com" then
      let firstModel := (data.models.getD []).head?.bind (fun m => m.model)
      if isTruthy firstModel then TestOutcome.probe ProbeKind.azure key apiBase
      else
        TestOutcome.fail { ok := false, error := some "No deployment/model specified for Azure test" }
    else if jsIncludes provider "openrouter" || jsIncludes apiBase "openrouter" then
      TestOutcome.probe ProbeKind.openrouter key apiBase
    else if jsIncludes provider "ollama" || jsIncludes apiBase "ollama" then
      TestOutcome.probe ProbeKind.ollama key apiBase
    else if jsIncludes provider "deepseek" || jsIncludes apiBase "deepseek" then
      TestOutcome.probe ProbeKind.deepseek key apiBase
    else TestOutcome.probe ProbeKind.generic key apiBase

/-- A document carries no raw key field. -/
def DocNoRawKey (d : Doc) : Prop := d.api_key = none ∧ d.apiKey = none

instance (d : Doc) : Decidable (DocNoRawKey d) := by
  unfold DocNoRawKey
  infer_instance

/-- Every document of every configuration file is free of raw key fields. -/
def FsClean (fs : Fs) : Prop := ∀ e ∈ fs, ∀ d ∈ e.2, DocNoRawKey d

instance (fs : Fs) : Decidable (FsClean fs) := by
  unfold FsClean
  infer_instance

/-- The document set produced and written by the merge step of
`updateLLMConfig` for a sanitized update. -/
def umwDocs (P : Params) (incoming : Doc) (w : World) : List Doc :=
  let docs := (readConfig P w).2
  let mapped := docs.map (fun d => if d.type == some "llm" then mergeLLM d incoming else d)
  if docs.any (fun d => d.type == some "llm") then mapped else mapped ++ [incoming]

/-- A document with every field absent, for default-valued helpers. -/
instance : Inhabited Doc := ⟨{}⟩

/-- The sanitized update of the key-extraction path: the raw key fields
replaced by the `api_key_env` reference. -/
def persistIncoming (data : Doc) : Doc :=
  { data with api_key_env := some (chooseEnvVarName data), api_key := none, apiKey := none }

/-- The world after the secrets-file write of the key-extraction path. -/
def persistWorld (data : Doc) (kv : String) (w : World) : World :=
  { w with envFile := writeEnvVarContent (chooseEnvVarName data).toList kv.toList w.envFile }

/-! Theorems. -/

/-! Structural lemmas about `jsTrim`, `splitOnNl`, `mapInit` and `stripCR`. -/

theorem mem_of_mem_jsTrim {c : Char} {l : List Char} (h : c ∈ jsTrim l) : c ∈ l := by
  unfold jsTrim at h
  rw [List.mem_reverse] at h
  have h2 := (List.dropWhile_suffix isWsChar).subset h
  rw [List.mem_reverse] at h2
  exact (List.dropWhile_suffix isWsChar).subset h2

theorem dropWhile_eq_self_head {p : Char → Bool} {l : List Char} (h : l.dropWhile p = l) :
    ∀ c, l.head? = some c → p c = false := by
  intro c hc
  cases l with
  | nil => simp at hc
  | cons a t =>
    have hac : a = c := by simpa using hc
    subst hac
    rw [List.dropWhile_cons] at h
    by_cases hp : p a = true
    · rw [if_pos hp] at h
      have hlen := congrArg List.length h
      have hle : (t.dropWhile p).length ≤ t.length :=
        (List.dropWhile_suffix p).sublist.length_le
      simp at hlen
      omega
    · simpa using hp

theorem trimLeft_eq_self_of_jsTrim {l : List Char} (h : jsTrim l = l) :
    l.dropWhile isWsChar = l := by
  have hsub : l.dropWhile isWsChar <:+ l := List.dropWhile_suffix _
  refine hsub.eq_of_length ?_
  have h1 : (jsTrim l).length ≤ (l.dropWhile isWsChar).length := by
    unfold jsTrim
    rw [List.length_reverse]
    have hsuf : (l.dropWhile isWsChar).reverse.dropWhile isWsChar <:+
        (l.dropWhile isWsChar).reverse := List.dropWhile_suffix isWsChar
    have := hsuf.sublist.length_le
    simpa using this
  have h2 : (l.dropWhile isWsChar).length ≤ l.length := hsub.sublist.length_le
  have h3 : (jsTrim l).length = l.length := by rw [h]
  omega

theorem head_not_ws_of_jsTrim {l : List Char} (h : jsTrim l = l) :
    ∀ c, l.head? = some c → isWsChar c = false :=
  dropWhile_eq_self_head (trimLeft_eq_self_of_jsTrim h)

theorem trimRight_eq_self_of_jsTrim {l : List Char} (h : jsTrim l = l) :
    (l.reverse.dropWhile isWsChar).reverse = l := by
  have h1 := trimLeft_eq_self_of_jsTrim h
  unfold jsTrim at h
  rw [h1] at h
  exact h

theorem getLast_not_ws_of_jsTrim {l : List Char} (h : jsTrim l = l) :
    ∀ c, l.getLast? = some c → isWsChar c = false := by
  intro c hc
  have h1 := trimRight_eq_self_of_jsTrim h
  have h2 : l.reverse.dropWhile isWsChar = l.reverse := by
    have := congrArg List.reverse h1
    simpa using this
  refine dropWhile_eq_self_head h2 c ?_
  rw [List.head?_reverse]
  exact hc

/-- The head of the trimmed form of a cons list whose head is not
whitespace is that head. -/
theorem jsTrim_head_of_not_ws {a : Char} {l : List Char} (ha : isWsChar a = false) :
    (jsTrim (a :: l)).head? = some a := by
  unfold jsTrim
  rw [List.dropWhile_cons, if_neg (by simp [ha])]
  rw [show (a :: l).reverse = l.reverse ++ [a] by simp]
  rw [List.dropWhile_append]
  by_cases he : (l.reverse.dropWhile isWsChar).isEmpty = true
  · rw [if_pos he]
    simp [List.dropWhile_cons, ha]
  · rw [if_neg he]
    rw [List.reverse_append]
    simp

/-- The trimmed head of any list is the head of its left trim. -/
theorem jsTrim_head_eq (l : List Char) :
    (jsTrim l).head? = (l.dropWhile isWsChar).head? := by
  cases hd : l.dropWhile isWsChar with
  | nil =>
    have : jsTrim l = [] := by unfold jsTrim; rw [hd]; simp
    rw [this]
  | cons a t =>
    have ha : isWsChar a = false := by
      have hh : (l.dropWhile isWsChar).head? = some a := by rw [hd]; rfl
      have hidem : (l.dropWhile isWsChar).dropWhile isWsChar = l.dropWhile isWsChar := by
        rw [hd, List.dropWhile_cons]
        by_cases hp : isWsChar a = true
        · exfalso
          have h0 := List.head?_dropWhile_not isWsChar l
          rw [hd] at h0
          simp at h0
          simp [h0] at hp
        · rw [if_neg hp]
      exact dropWhile_eq_self_head hidem a hh
    have : jsTrim l = jsTrim (l.dropWhile isWsChar) := by
      unfold jsTrim
      rw [List.dropWhile_idempotent]
    rw [this, hd]
    rw [jsTrim_head_of_not_ws ha]
    rfl

theorem dropWhile_eq_self_of_head {p : Char → Bool} {l : List Char}
    (h : ∀ c, l.head? = some c → p c = false) : l.dropWhile p = l := by
  cases l with
  | nil => rfl
  | cons a t =>
    rw [List.dropWhile_cons, if_neg]
    simp [h a rfl]

theorem jsTrim_eq_self_of_ends {l : List Char}
    (h1 : ∀ c, l.head? = some c → isWsChar c = false)
    (h2 : ∀ c, l.getLast? = some c → isWsChar c = false) : jsTrim l = l := by
  unfold jsTrim
  rw [dropWhile_eq_self_of_head h1]
  rw [dropWhile_eq_self_of_head (by intro c hc; exact h2 c (by rwa [List.head?_reverse] at hc))]
  exact List.reverse_reverse l

theorem jsTrim_idem (l : List Char) : jsTrim (jsTrim l) = jsTrim l := by
  refine jsTrim_eq_self_of_ends ?_ ?_
  · intro c hc
    rw [jsTrim_head_eq] at hc
    have h0 := List.head?_dropWhile_not isWsChar l
    rw [hc] at h0
    exact h0
  · intro c hc
    have : (jsTrim l).reverse.head? = some c := by rwa [List.head?_reverse]
    unfold jsTrim at this
    rw [List.reverse_reverse] at this
    have h0 := List.head?_dropWhile_not isWsChar (l.dropWhile isWsChar).reverse
    rw [this] at h0
    simpa using h0

theorem splitOnNl_ne_nil (l : List Char) : splitOnNl l ≠ [] := by
  cases l with
  | nil => simp [splitOnNl]
  | cons c cs =>
    rw [splitOnNl]
    cases h : splitOnNl cs with
    | nil => simp
    | cons a as =>
      dsimp only
      split <;> simp

theorem splitOnNl_no_nl {l : List Char} :
    ∀ {piece : List Char}, piece ∈ splitOnNl l → '\n' ∉ piece := by
  induction l with
  | nil =>
    intro piece h
    rw [splitOnNl] at h
    simp at h
    simp [h]
  | cons c cs ih =>
    intro piece h
    rw [splitOnNl] at h
    cases hs : splitOnNl cs with
    | nil => exact absurd hs (splitOnNl_ne_nil cs)
    | cons a as =>
      rw [hs] at h
      dsimp only at h
      by_cases hc : c = '\n'
      · rw [if_pos hc] at h
        rcases List.mem_cons.mp h with h1 | h2
        · simp [h1]
        · exact ih (show piece ∈ splitOnNl cs by rw [hs]; exact h2)
      · rw [if_neg hc] at h
        rcases List.mem_cons.mp h with h1 | h2
        · subst h1
          intro hmem
          rcases List.mem_cons.mp hmem with h3 | h4
          · exact hc h3.symm
          · exact ih (show a ∈ splitOnNl cs by rw [hs]; exact List.mem_cons_self a as) h4
        · exact ih (show piece ∈ splitOnNl cs by rw [hs]; exact List.mem_cons_of_mem a h2)

theorem splitOnNl_append_nl {line : List Char} (h : '\n' ∉ line) (rest : List Char) :
    splitOnNl (line ++ '\n' :: rest) = line :: splitOnNl rest := by
  induction line with
  | nil =>
    rw [List.nil_append, splitOnNl]
    cases hs : splitOnNl rest with
    | nil => exact absurd hs (splitOnNl_ne_nil rest)
    | cons a as => simp [← hs]
  | cons c line ih =>
    have hc : c ≠ '\n' := fun hcc => h (hcc ▸ List.mem_cons_self c line)
    have h2 : '\n' ∉ line := fun hm => h (List.mem_cons_of_mem c hm)
    rw [List.cons_append, splitOnNl, ih h2]
    simp [hc]

theorem splitOnNl_eq_single {l : List Char} (h : '\n' ∉ l) : splitOnNl l = [l] := by
  induction l with
  | nil => rfl
  | cons c cs ih =>
    have hc : c ≠ '\n' := fun hcc => h (hcc ▸ List.mem_cons_self c cs)
    have h2 : '\n' ∉ cs := fun hm => h (List.mem_cons_of_mem c hm)
    rw [splitOnNl, ih h2]
    simp [hc]

theorem mapInit_single (f : α → α) (a : α) : mapInit f [a] = [a] := rfl

theorem mapInit_cons_ne_nil (f : α → α) (a : α) {l : List α} (h : l ≠ []) :
    mapInit f (a :: l) = f a :: mapInit f l := by
  cases l with
  | nil => exact absurd rfl h
  | cons b t => rfl

theorem mem_mapInit {f : α → α} :
    ∀ {l : List α} {x : α}, x ∈ mapInit f l → x ∈ l ∨ ∃ y ∈ l, x = f y
  | [], x, h => by simp [mapInit] at h
  | [a], x, h => by
    rw [mapInit_single] at h
    left
    exact h
  | a :: b :: t, x, h => by
    rw [mapInit_cons_ne_nil f a (by simp)] at h
    rcases List.mem_cons.mp h with h1 | h2
    · right
      exact ⟨a, List.mem_cons_self a _, h1⟩
    · rcases mem_mapInit h2 with h3 | ⟨y, hy, hxy⟩
      · left
        exact List.mem_cons_of_mem _ h3
      · right
        exact ⟨y, List.mem_cons_of_mem _ hy, hxy⟩

theorem stripCR_eq_self {l : List Char} (h : l.getLast? ≠ some '\r') : stripCR l = l := by
  unfold stripCR
  rw [if_neg h]

theorem mem_of_mem_stripCR {c : Char} {l : List Char} (h : c ∈ stripCR l) : c ∈ l := by
  unfold stripCR at h
  split at h
  · exact (List.dropLast_sublist l).subset h
  · exact h

theorem noNl_envLine {p : List Char × List Char}
    (hk : p.1 = [] ∨ EnvKeyWF p.1) (hv : EnvValWF p.2) : '\n' ∉ envLine p := by
  unfold envLine
  intro hmem
  rcases List.mem_append.mp hmem with h1 | h2
  · rcases hk with hk | hk
    · rw [hk] at h1
      simp at h1
    · exact hk.2.2.1 h1
  · rcases List.mem_cons.mp h2 with h3 | h4
    · simp at h3
    · exact hv.2 h4

theorem envLine_ne_nil (p : List Char × List Char) : envLine p ≠ [] := by
  unfold envLine
  simp

theorem stripCR_envLine {p : List Char × List Char} (hv : EnvValWF p.2) :
    stripCR (envLine p) = envLine p := by
  refine stripCR_eq_self ?_
  unfold envLine
  rw [List.getLast?_append]
  cases hv2 : p.2 with
  | nil => simp [hv2]
  | cons a t =>
    have hlast : ('=' :: p.2).getLast? = p.2.getLast? := by
      rw [hv2]
      exact List.getLast?_cons_cons
    cases hc : p.2.getLast? with
    | none =>
      rw [hv2] at hc
      simp at hc
    | some c =>
      have hcw := getLast_not_ws_of_jsTrim hv.1 c hc
      rw [hv2] at hlast hc
      rw [hlast, hc]
      intro hcon
      have hcr : c = '\r' := by simpa [Option.or] using hcon
      rw [hcr] at hcw
      exact absurd hcw (by decide)

theorem takeWhile_ne_eq {k : List Char} (v : List Char) (hk : '=' ∉ k) :
    (k ++ '=' :: v).takeWhile (fun c => c ≠ '=') = k := by
  induction k with
  | nil => simp [List.takeWhile_cons]
  | cons a t ih =>
    have ha : a ≠ '=' := fun h => hk (h ▸ List.mem_cons_self a t)
    have ht : '=' ∉ t := fun h => hk (List.mem_cons_of_mem a h)
    rw [List.cons_append, List.takeWhile_cons, if_pos (by simp [ha]), ih ht]

theorem parseEnvLine_envLine {k v : List Char} (hk : EnvKeyWF k) (hv : EnvValWF v) :
    parseEnvLine (k ++ '=' :: v) = some (k, v) := by
  obtain ⟨hk1, hk2, hk3, hk4, hk5⟩ := hk
  obtain ⟨hv1, hv2⟩ := hv
  obtain ⟨a, t, hkat⟩ : ∃ a t, k = a :: t := by
    cases k with
    | nil => exact absurd rfl hk1
    | cons a t => exact ⟨a, t, rfl⟩
  have haw : isWsChar a = false := head_not_ws_of_jsTrim hk2 a (by rw [hkat]; rfl)
  have hhead : (jsTrim (k ++ '=' :: v)).head? = some a := by
    rw [hkat, List.cons_append]
    exact jsTrim_head_of_not_ws haw
  have htw : (k ++ '=' :: v).takeWhile (fun c => c ≠ '=') = k := takeWhile_ne_eq v hk4
  have hdrop : (k ++ '=' :: v).drop (k.length + 1) = v := by
    have h1 : k ++ '=' :: v = (k ++ ['=']) ++ v := by simp
    rw [h1, show k.length + 1 = (k ++ ['=']).length by simp]
    exact List.drop_left _ _
  simp only [parseEnvLine]
  rw [if_neg ?hcomment]
  case hcomment =>
    rw [hhead]
    intro hcon
    apply hk5
    rw [hkat]
    simpa using hcon
  rw [htw]
  rw [if_pos ?hcond]
  case hcond =>
    constructor
    · exact List.length_pos.mpr hk1
    · simp
  rw [List.take_left, hdrop, hk2, hv1]

theorem parseEnvLine_empty_key (v : List Char) : parseEnvLine ('=' :: v) = none := by
  simp only [parseEnvLine]
  rw [if_neg]
  · rw [List.takeWhile_cons]
    simp
  · rw [jsTrim_head_of_not_ws (by decide)]
    simp

theorem parseEnvLine_comment {line : List Char} (h : (jsTrim line).head? = some '#') :
    parseEnvLine line = none := by
  simp only [parseEnvLine]
  rw [if_pos h]

theorem getKV_setKV_self (kv : List (List Char × List Char)) (k v : List Char) :
    getKV (setKV kv k v) k = some v := by
  induction kv with
  | nil => simp [setKV, getKV]
  | cons p rest ih =>
    obtain ⟨k0, v0⟩ := p
    rw [setKV]
    by_cases h : k0 = k
    · rw [if_pos h, getKV, if_pos h]
    · rw [if_neg h, getKV, if_neg h]
      exact ih

theorem getKV_setKV_ne (kv : List (List Char × List Char)) {k k2 : List Char} (v : List Char)
    (h : k2 ≠ k) : getKV (setKV kv k v) k2 = getKV kv k2 := by
  induction kv with
  | nil =>
    simp only [setKV, getKV]
    rw [if_neg (fun hh => h hh.symm)]
  | cons p rest ih =>
    obtain ⟨k0, v0⟩ := p
    rw [setKV]
    by_cases h0 : k0 = k
    · rw [if_pos h0]
      simp only [getKV]
      by_cases h2 : k0 = k2
      · exact absurd (h2.symm.trans h0) h
      · rw [if_neg h2, if_neg h2]
    · rw [if_neg h0]
      simp only [getKV]
      by_cases h2 : k0 = k2
      · rw [if_pos h2, if_pos h2]
      · rw [if_neg h2, if_neg h2]
        exact ih

theorem setKV_eq_of_getKV {kv : List (List Char × List Char)} {k v : List Char}
    (h : getKV kv k = some v) : setKV kv k v = kv := by
  induction kv with
  | nil => simp [getKV] at h
  | cons p rest ih =>
    obtain ⟨k0, v0⟩ := p
    rw [getKV] at h
    rw [setKV]
    by_cases h0 : k0 = k
    · rw [if_pos h0] at h ⊢
      injection h with h
      rw [h]
    · rw [if_neg h0] at h ⊢
      rw [ih h]

theorem mem_setKV {kv : List (List Char × List Char)} {k v : List Char}
    {p : List Char × List Char} (h : p ∈ setKV kv k v) : p ∈ kv ∨ p = (k, v) := by
  induction kv with
  | nil =>
    rw [setKV] at h
    right
    simpa using h
  | cons q rest ih =>
    obtain ⟨k0, v0⟩ := q
    rw [setKV] at h
    by_cases h0 : k0 = k
    · rw [if_pos h0] at h
      rcases List.mem_cons.mp h with h1 | h2
      · right
        rw [h1, h0]
      · left
        exact List.mem_cons_of_mem _ h2
    · rw [if_neg h0] at h
      rcases List.mem_cons.mp h with h1 | h2
      · left
        rw [h1]
        exact List.mem_cons_self _ _
      · rcases ih h2 with h3 | h4
        · left
          exact List.mem_cons_of_mem _ h3
        · right
          exact h4

theorem keys_setKV (kv : List (List Char × List Char)) (k v : List Char) :
    (setKV kv k v).map Prod.fst =
      if k ∈ kv.map Prod.fst then kv.map Prod.fst else kv.map Prod.fst ++ [k] := by
  induction kv with
  | nil => simp [setKV]
  | cons p rest ih =>
    obtain ⟨k0, v0⟩ := p
    rw [setKV]
    by_cases h0 : k0 = k
    · rw [if_pos h0]
      simp [h0]
    · rw [if_neg h0]
      simp only [List.map_cons]
      rw [ih]
      by_cases hm : k ∈ rest.map Prod.fst
      · rw [if_pos hm, if_pos (by simp [hm])]
      · rw [if_neg hm, if_neg ?hne]
        case hne =>
          simp only [List.mem_cons]
          rintro (h1 | h2)
          · exact h0 h1.symm
          · exact hm h2
        simp

theorem getKV_filter_ne_nil {kv : List (List Char × List Char)} {k : List Char} (h : k ≠ []) :
    getKV (kv.filter (fun p => p.1 ≠ [])) k = getKV kv k := by
  induction kv with
  | nil => rfl
  | cons p rest ih =>
    obtain ⟨k0, v0⟩ := p
    rw [List.filter_cons]
    by_cases h0 : k0 = []
    · rw [if_neg (by simp [h0])]
      rw [getKV, if_neg (by rw [h0]; exact fun hh => h hh.symm)]
      exact ih
    · rw [if_pos (by simp [h0])]
      rw [getKV, getKV]
      by_cases h2 : k0 = k
      · rw [if_pos h2, if_pos h2]
      · rw [if_neg h2, if_neg h2]
        exact ih

theorem jsTrim_nil_of_dropWhile_nil {A : List Char} (h : A.dropWhile isWsChar = []) :
    jsTrim A = [] := by
  unfold jsTrim
  rw [h]
  rfl

theorem jsTrim_head_prefix {A B : List Char} (h : jsTrim A ≠ []) :
    (jsTrim (A ++ B)).head? = (jsTrim A).head? := by
  rw [jsTrim_head_eq, jsTrim_head_eq]
  have hA : A.dropWhile isWsChar ≠ [] := fun hcon => h (jsTrim_nil_of_dropWhile_nil hcon)
  rw [List.dropWhile_append, if_neg (by simpa using hA), List.head?_append]
  cases hh : (A.dropWhile isWsChar).head? with
  | none => exact absurd (List.head?_eq_none_iff.mp hh) hA
  | some c => rfl

theorem parseEnvLine_good {line k v : List Char} (hnl : '\n' ∉ line)
    (h : parseEnvLine line = some (k, v)) : (k = [] ∨ EnvKeyWF k) ∧ EnvValWF v := by
  simp only [parseEnvLine] at h
  by_cases hcm : (jsTrim line).head? = some '#'
  · rw [if_pos hcm] at h
    exact absurd h (by simp)
  rw [if_neg hcm] at h
  by_cases hcond : 0 < (line.takeWhile (fun c => c ≠ '=')).length ∧
      (line.takeWhile (fun c => c ≠ '=')).length < line.length
  · rw [if_pos hcond] at h
    injection h with h
    injection h with hk hv
    have htake : line.take (line.takeWhile (fun c => c ≠ '=')).length =
        line.takeWhile (fun c => c ≠ '=') := by
      have hpre : line.takeWhile (fun c : Char => c ≠ '=') <+: line :=
        List.takeWhile_prefix _
      obtain ⟨t, ht⟩ := hpre
      calc line.take (line.takeWhile (fun c => c ≠ '=')).length
          = (line.takeWhile (fun c => c ≠ '=') ++ t).take
              (line.takeWhile (fun c => c ≠ '=')).length := by rw [ht]
        _ = line.takeWhile (fun c => c ≠ '=') := List.take_left _ _
    constructor
    · by_cases hk0 : k = []
      · exact Or.inl hk0
      · refine Or.inr ⟨hk0, ?_, ?_, ?_, ?_⟩
        · rw [← hk]
          exact jsTrim_idem _
        · intro hm
          rw [← hk] at hm
          exact hnl (List.take_subset _ line (mem_of_mem_jsTrim hm))
        · intro hm
          rw [← hk, htake] at hm
          have := List.mem_takeWhile_imp (mem_of_mem_jsTrim hm)
          simp at this
        · intro hh
          apply hcm
          have hne : jsTrim (line.take (line.takeWhile (fun c => c ≠ '=')).length) ≠ [] := by
            rw [hk]
            exact hk0
          calc (jsTrim line).head?
              = (jsTrim (line.take (line.takeWhile (fun c => c ≠ '=')).length ++
                  line.drop (line.takeWhile (fun c => c ≠ '=')).length)).head? := by
                rw [List.take_append_drop]
            _ = (jsTrim (line.take (line.takeWhile (fun c => c ≠ '=')).length)).head? :=
                jsTrim_head_prefix hne
            _ = some '#' := by rw [hk, hh]
    · refine ⟨?_, ?_⟩
      · rw [← hv]
        exact jsTrim_idem _
      · intro hm
        rw [← hv] at hm
        exact hnl (List.drop_subset _ line (mem_of_mem_jsTrim hm))
  · rw [if_neg hcond] at h
    exact absurd h (by simp)

theorem KVGood_setKV {kv : List (List Char × List Char)} {k v : List Char}
    (h : KVGood kv) (hk : k = [] ∨ EnvKeyWF k) (hv : EnvValWF v) : KVGood (setKV kv k v) := by
  constructor
  · rw [keys_setKV]
    by_cases hm : k ∈ kv.map Prod.fst
    · rw [if_pos hm]
      exact h.1
    · rw [if_neg hm]
      rw [List.nodup_append]
      refine ⟨h.1, List.nodup_singleton _, fun a ha hb => ?_⟩
      simp at hb
      subst hb
      exact hm ha
  · intro p hp
    rcases mem_setKV hp with h1 | h2
    · exact h.2 p h1
    · rw [h2]
      exact ⟨hk, hv⟩

theorem parseEnvLines_good {ls : List (List Char)} :
    ∀ {kv}, (∀ l ∈ ls, '\n' ∉ l) → KVGood kv → KVGood (parseEnvLines ls kv) := by
  induction ls with
  | nil =>
    intro kv _ h
    exact h
  | cons line rest ih =>
    intro kv hnl h
    rw [parseEnvLines]
    cases hp : parseEnvLine line with
    | none =>
      dsimp only
      exact ih (fun l hl => hnl l (List.mem_cons_of_mem _ hl)) h
    | some p =>
      obtain ⟨k, v⟩ := p
      dsimp only
      have hg := parseEnvLine_good (hnl line (List.mem_cons_self _ _)) hp
      exact ih (fun l hl => hnl l (List.mem_cons_of_mem _ hl)) (KVGood_setKV h hg.1 hg.2)

theorem jsSplitLines_no_nl {c piece : List Char} (h : piece ∈ jsSplitLines c) :
    '\n' ∉ piece := by
  unfold jsSplitLines at h
  rcases mem_mapInit h with h1 | ⟨y, hy, hxy⟩
  · exact splitOnNl_no_nl h1
  · rw [hxy]
    intro hm
    exact splitOnNl_no_nl hy (mem_of_mem_stripCR hm)

theorem parseEnvContent_good (c : List Char) : KVGood (parseEnvContent c) := by
  unfold parseEnvContent
  refine parseEnvLines_good ?_ ?_
  · intro l hl
    exact jsSplitLines_no_nl (List.mem_of_mem_filter hl)
  · exact ⟨List.nodup_nil, fun p hp => absurd hp (List.not_mem_nil p)⟩

theorem lineKeys_cons_of_mem {line : List Char} {rest : List (List Char)} {k : List Char}
    (h : k ∈ lineKeys rest) : k ∈ lineKeys (line :: rest) := by
  unfold lineKeys at h ⊢
  rw [List.filterMap_cons]
  cases parseEnvLine line <;> simp [h]

theorem parseEnvLines_acc_cons {ls : List (List Char)} :
    ∀ {kv : List (List Char × List Char)} {k v : List Char}, k ∉ lineKeys ls →
      parseEnvLines ls ((k, v) :: kv) = (k, v) :: parseEnvLines ls kv := by
  induction ls with
  | nil =>
    intro kv k v _
    rfl
  | cons line rest ih =>
    intro kv k v h
    rw [parseEnvLines, parseEnvLines]
    cases hp : parseEnvLine line with
    | none =>
      dsimp only
      exact ih (fun hm => h (lineKeys_cons_of_mem hm))
    | some p =>
      obtain ⟨k1, v1⟩ := p
      dsimp only
      have hk1 : k1 ∈ lineKeys (line :: rest) := by
        unfold lineKeys
        rw [List.filterMap_cons, hp]
        simp
      have hne : k ≠ k1 := fun he => h (he ▸ hk1)
      rw [show setKV ((k, v) :: kv) k1 v1 = (k, v) :: setKV kv k1 v1 from by
        rw [setKV, if_neg hne]]
      exact ih (fun hm => h (lineKeys_cons_of_mem hm))

theorem jsSplitLines_serializeEnv :
    ∀ {kv : List (List Char × List Char)}, KVEntriesGood kv →
      (jsSplitLines (serializeEnv kv)).filter (fun l => l ≠ []) = kv.map envLine
  | [], _ => by simp [serializeEnv, jsSplitLines, splitOnNl, mapInit]
  | [p], h => by
    obtain ⟨k, v⟩ := p
    have hp := h (k, v) (List.mem_cons_self _ _)
    have hnl : '\n' ∉ k ++ '=' :: v := noNl_envLine hp.1 hp.2
    rw [serializeEnv]
    unfold jsSplitLines
    rw [splitOnNl_eq_single hnl, mapInit_single, List.filter_cons,
      if_pos (by simp)]
    rfl
  | p :: q :: rest, h => by
    obtain ⟨k, v⟩ := p
    have hp := h (k, v) (List.mem_cons_self _ _)
    have hq : KVEntriesGood (q :: rest) := fun r hr => h r (List.mem_cons_of_mem _ hr)
    have hline : serializeEnv ((k, v) :: q :: rest) =
        envLine (k, v) ++ '\n' :: serializeEnv (q :: rest) := by
      rw [serializeEnv]
      simp [envLine]
    rw [hline]
    unfold jsSplitLines
    rw [splitOnNl_append_nl (noNl_envLine hp.1 hp.2) _,
      mapInit_cons_ne_nil _ _ (splitOnNl_ne_nil _),
      stripCR_envLine hp.2, List.filter_cons,
      if_pos (by simpa using envLine_ne_nil (k, v))]
    have ihq := jsSplitLines_serializeEnv hq
    unfold jsSplitLines at ihq
    rw [ihq]
    rfl

theorem lineKeys_map_sub {kv : List (List Char × List Char)} (h : KVEntriesGood kv) :
    lineKeys (kv.map envLine) ⊆ kv.map Prod.fst := by
  induction kv with
  | nil => simp [lineKeys]
  | cons p rest ih =>
    obtain ⟨k, v⟩ := p
    have hp := h (k, v) (List.mem_cons_self _ _)
    have hrest : KVEntriesGood rest := fun r hr => h r (List.mem_cons_of_mem _ hr)
    unfold lineKeys
    rw [List.map_cons, List.filterMap_cons]
    rcases hp.1 with hk | hk
    · have he : envLine (k, v) = '=' :: v := by
        simp only at hk
        simp [envLine, hk]
      rw [he, parseEnvLine_empty_key]
      intro a ha
      exact List.mem_cons_of_mem _ (ih hrest ha)
    · rw [show envLine (k, v) = k ++ '=' :: v from rfl, parseEnvLine_envLine hk hp.2]
      intro a ha
      simp only [Option.map_some] at ha
      rcases List.mem_cons.mp ha with h1 | h2
      · rw [h1]
        exact List.mem_cons_self _ _
      · exact List.mem_cons_of_mem _ (ih hrest h2)

theorem parseEnvLines_map_envLine :
    ∀ {kv : List (List Char × List Char)}, KVGood kv →
      parseEnvLines (kv.map envLine) [] = kv.filter (fun p => p.1 ≠ [])
  | [], _ => rfl
  | (k, v) :: rest, h => by
    have hrest : KVGood rest :=
      ⟨(List.nodup_cons.mp (by simpa using h.1)).2,
       fun p hp => h.2 p (List.mem_cons_of_mem _ hp)⟩
    have hp := h.2 (k, v) (List.mem_cons_self _ _)
    rw [List.map_cons, parseEnvLines]
    rcases hp.1 with hk | hk
    · simp only at hk
      subst hk
      rw [show envLine (([] : List Char), v) = '=' :: v from by simp [envLine],
        parseEnvLine_empty_key]
      dsimp only
      rw [parseEnvLines_map_envLine hrest, List.filter_cons, if_neg (by simp)]
    · rw [show envLine (k, v) = k ++ '=' :: v from rfl, parseEnvLine_envLine hk hp.2]
      dsimp only
      have hknotin : k ∉ lineKeys (rest.map envLine) := by
        intro hmem
        have hkeys : k ∉ rest.map Prod.fst :=
          (List.nodup_cons.mp (by simpa using h.1)).1
        exact hkeys (lineKeys_map_sub hrest.2 hmem)
      rw [show setKV ([] : List (List Char × List Char)) k v = [(k, v)] from rfl,
        parseEnvLines_acc_cons hknotin, parseEnvLines_map_envLine hrest,
        List.filter_cons, if_pos (by simpa using hk.1)]

theorem parseEnvContent_serializeEnv {kv : List (List Char × List Char)} (h : KVGood kv) :
    parseEnvContent (serializeEnv kv) = kv.filter (fun p => p.1 ≠ []) := by
  unfold parseEnvContent
  rw [jsSplitLines_serializeEnv h.2, parseEnvLines_map_envLine h]

theorem parseEnvLines_append (a b : List (List Char)) :
    ∀ kv, parseEnvLines (a ++ b) kv = parseEnvLines b (parseEnvLines a kv) := by
  induction a with
  | nil =>
    intro kv
    rfl
  | cons line rest ih =>
    intro kv
    rw [List.cons_append, parseEnvLines, parseEnvLines]
    cases hp : parseEnvLine line with
    | none =>
      dsimp only
      exact ih kv
    | some p =>
      obtain ⟨k, v⟩ := p
      dsimp only
      exact ih (setKV kv k v)

theorem parseEnvLinesAll_ignore {bl : List Char}
    (hb : bl = [] ∨ (jsTrim bl).head? = some '#') (ls1 ls2 : List (List Char)) :
    parseEnvLinesAll (ls1 ++ bl :: ls2) = parseEnvLinesAll (ls1 ++ ls2) := by
  unfold parseEnvLinesAll
  rw [List.filter_append, List.filter_append, List.filter_cons]
  rcases hb with hb | hb
  · rw [if_neg (by simp [hb])]
  · by_cases hbe : bl = []
    · rw [if_neg (by simp [hbe])]
    · rw [if_pos (by simpa using hbe)]
      rw [parseEnvLines_append, parseEnvLines_append, parseEnvLines,
        parseEnvLine_comment hb]

/-- Claim C9 (amended): for a well-formed variable name (nonempty, trimmed,
free of `=`, newline and a leading `#`) and a well-formed value (trimmed,
newline free), and for any prior content whose parsed keys are all
nonempty, `writeEnvVar` rewrites the file so that the name maps to the
value, every other parsed key keeps its previous value, blank lines and
comment lines are ignored by the parse, writing twice equals writing once,
and an absent file is treated as empty content. -/
theorem writeEnvVar_upsert_spec (n v c : List Char)
    (hn : EnvKeyWF n) (hv : EnvValWF v)
    (hc : ∀ p ∈ parseEnvContent c, p.1 ≠ []) :
    getKV (parseEnvContent (writeEnvVarContent n v c)) n = some v ∧
    (∀ k, k ≠ n →
      getKV (parseEnvContent (writeEnvVarContent n v c)) k = getKV (parseEnvContent c) k) ∧
    writeEnvVarContent n v (writeEnvVarContent n v c) = writeEnvVarContent n v c ∧
    (∀ ls1 ls2 bl, bl = [] ∨ (jsTrim bl).head? = some '#' →
      parseEnvLinesAll (ls1 ++ bl :: ls2) = parseEnvLinesAll (ls1 ++ ls2)) ∧
    writeEnvVarFile n v none = writeEnvVarContent n v [] := by
  have good0 := parseEnvContent_good c
  have good1 : KVGood (setKV (parseEnvContent c) n v) :=
    KVGood_setKV good0 (Or.inr hn) hv
  have hfil : (setKV (parseEnvContent c) n v).filter (fun p => p.1 ≠ []) =
      setKV (parseEnvContent c) n v := by
    rw [List.filter_eq_self]
    intro p hp
    rcases mem_setKV hp with h1 | h2
    · simpa using hc p h1
    · rw [h2]
      simpa using hn.1
  have hround : parseEnvContent (writeEnvVarContent n v c) = setKV (parseEnvContent c) n v := by
    unfold writeEnvVarContent
    rw [parseEnvContent_serializeEnv good1, hfil]
  refine ⟨?_, ?_, ?_, ?_, rfl⟩
  · rw [hround]
    exact getKV_setKV_self _ _ _
  · intro k hk
    rw [hround]
    exact getKV_setKV_ne _ _ hk
  · have h1 : writeEnvVarContent n v (writeEnvVarContent n v c) =
        serializeEnv (setKV (parseEnvContent (writeEnvVarContent n v c)) n v) := rfl
    rw [h1, hround, setKV_eq_of_getKV (getKV_setKV_self _ n v)]
    rfl
  · intro ls1 ls2 bl hb
    exact parseEnvLinesAll_ignore hb ls1 ls2

/-- Claim C9 counterexample: the claim fails as stated for arbitrary
contents and values.  A line whose text before the first `=` is blank
parses to an empty key that the rewrite then drops, breaking both
preservation and idempotence, and a value containing a newline is not
recovered by a later parse. -/
theorem writeEnvVar_claim_counterexample :
    (writeEnvVarContent "A".toList "1".toList
        (writeEnvVarContent "A".toList "1".toList " =x".toList) ≠
      writeEnvVarContent "A".toList "1".toList " =x".toList) ∧
    getKV (parseEnvContent (writeEnvVarContent "A".toList "1\nB=2".toList [])) "A".toList ≠
      some "1\nB=2".toList := by decide

/-- Witness for `writeEnvVar_upsert_spec` at concrete inputs. -/
theorem writeEnvVar_upsert_spec_witness :
    getKV (parseEnvContent (writeEnvVarContent "A".toList "1".toList "B=2".toList))
      "A".toList = some "1".toList ∧
    getKV (parseEnvContent (writeEnvVarContent "A".toList "1".toList "B=2".toList))
      "B".toList = getKV (parseEnvContent "B=2".toList) "B".toList :=
  ⟨(writeEnvVar_upsert_spec "A".toList "1".toList "B=2".toList (by decide) (by decide)
      (by decide)).1,
   (writeEnvVar_upsert_spec "A".toList "1".toList "B=2".toList (by decide) (by decide)
      (by decide)).2.1 "B".toList (by decide)⟩

/-! Claim theorems. -/

/-- Claim C6: writing a document set with no llm-typed entry fails with an
error, and the world (filesystem and secrets file alike) is exactly the
one before the call: the validation precedes every filesystem effect. -/
theorem writeConfig_no_llm_fails (P : Params) (docs : List Doc) (w : World)
    (h : ∀ d ∈ docs, d.type ≠ some "llm") :
    writeConfig P docs w = (w, Except.error CfgError.noLLMDoc) := by
  unfold writeConfig
  rw [if_neg]
  intro hany
  rcases List.any_eq_true.mp hany with ⟨d, hd, hdt⟩
  exact h d hd (by simpa using hdt)

/-- Witness for `writeConfig_no_llm_fails` at a concrete input. -/
theorem writeConfig_no_llm_fails_witness :
    writeConfig { projectConfigPath := none, cwd := "/p", home := "/h" }
        [{ type := some "telemetry" }]
        { fs := [("x", [])], envFile := ['A'], envWriteOk := true, migrateOk := true } =
      ({ fs := [("x", [])], envFile := ['A'], envWriteOk := true, migrateOk := true },
        Except.error CfgError.noLLMDoc) :=
  writeConfig_no_llm_fails _ _ _ (by decide)

theorem findCandidate_lookup {fs : Fs} :
    ∀ {cands : List String} {p : String} {docs : List Doc},
      findCandidate fs cands = some (p, docs) → fsLookup fs p = some docs := by
  intro cands
  induction cands with
  | nil =>
    intro p docs h
    simp [findCandidate] at h
  | cons q rest ih =>
    intro p docs h
    rw [findCandidate] at h
    cases hq : fsLookup fs q with
    | some d =>
      rw [hq] at h
      dsimp only at h
      injection h with h
      injection h with h1 h2
      rw [← h1, ← h2]
      exact hq
    | none =>
      rw [hq] at h
      dsimp only at h
      exact ih h

/-- Claim C4 (amended): the one-time migration (copy the read content
verbatim to the canonical user-level path, then delete the source file)
runs exactly when the successfully read candidate path equals
`DEFAULT_CONFIG_PATH` — which is the explicit override when
`PROJECT_CONFIG_PATH` is set, else the project-local path — and the
user-level config does not exist; a read from the user-level path never
migrates, a failing migration is swallowed and the documents are still
returned, and in every non-migrating case the world is untouched. -/
theorem readConfig_migration_exactly (P : Params) (w : World) {p : String} {docs : List Doc}
    (h : findCandidate w.fs (candidates P) = some (p, docs)) :
    (readConfig P w).2 = docs ∧
    (p = defaultConfigPath P → fsLookup w.fs (homedirConfig P) = none → w.migrateOk = true →
      (readConfig P w).1.fs = fsDelete (fsSet w.fs (homedirConfig P) docs) (defaultConfigPath P)) ∧
    (p = defaultConfigPath P → fsLookup w.fs (homedirConfig P) = none → w.migrateOk = false →
      (readConfig P w).1 = w) ∧
    (p ≠ defaultConfigPath P ∨ fsLookup w.fs (homedirConfig P) ≠ none →
      (readConfig P w).1 = w) ∧
    (p = homedirConfig P → (readConfig P w).1 = w) := by
  have hl := findCandidate_lookup h
  unfold readConfig
  rw [h]
  dsimp only
  by_cases hcond : p = defaultConfigPath P ∧ fsLookup w.fs (homedirConfig P) = none
  · rw [if_pos hcond]
    by_cases hm : w.migrateOk
    · rw [if_pos hm]
      refine ⟨rfl, fun _ _ _ => rfl, fun _ _ hm2 => ?_, fun hne => ?_, fun hph => ?_⟩
      · rw [hm] at hm2
        exact absurd hm2 (by simp)
      · rcases hne with hne | hne
        · exact absurd hcond.1 hne
        · exact absurd hcond.2 hne
      · rw [hph] at hl
        rw [hl] at hcond
        exact absurd hcond.2 (by simp)
    · rw [if_neg hm]
      refine ⟨rfl, fun _ _ hm1 => ?_, fun _ _ _ => rfl, fun _ => rfl, fun _ => rfl⟩
      exact absurd hm1 hm
  · rw [if_neg hcond]
    refine ⟨rfl, fun h1 h2 _ => ?_, fun _ _ _ => rfl, fun _ => rfl, fun _ => rfl⟩
    exact absurd ⟨h1, h2⟩ hcond

/-- Claim C4 counterexample: with `PROJECT_CONFIG_PATH` set,
`DEFAULT_CONFIG_PATH` equals the explicit override path, so a read that
succeeds at the explicit override (the head of the candidate list, and the
only existing file) still triggers the migration: the override file is
deleted and its content copied to the user-level path, although the claim
says migration is never triggered for the explicit override path. -/
theorem readConfig_migration_counterexample :
    (candidates ⟨some "/ov/config.yaml", "/proj", "/h"⟩).head? = some "/ov/config.yaml" ∧
    fsLookup [("/ov/config.yaml", defaultDocs)] "/h/.wrenai/config.yaml" = none ∧
    (readConfig ⟨some "/ov/config.yaml", "/proj", "/h"⟩
        ⟨[("/ov/config.yaml", defaultDocs)], [], true, true⟩).1.fs =
      [("/h/.wrenai/config.yaml", defaultDocs)] := by decide

/-- Witness for `readConfig_migration_exactly` at a concrete input: the
project-local file migrates to the user-level path when no override is
set. -/
theorem readConfig_migration_exactly_witness :
    (readConfig ⟨none, "/p", "/h"⟩
        ⟨[("/p/config.yaml", defaultDocs)], [], true, true⟩).2 = defaultDocs ∧
    (readConfig ⟨none, "/p", "/h"⟩
        ⟨[("/p/config.yaml", defaultDocs)], [], true, true⟩).1.fs =
      fsDelete (fsSet [("/p/config.yaml", defaultDocs)] "/h/.wrenai/config.yaml" defaultDocs)
        "/p/config.yaml" := by
  have h := readConfig_migration_exactly ⟨none, "/p", "/h"⟩
    ⟨[("/p/config.yaml", defaultDocs)], [], true, true⟩
    (show findCandidate [("/p/config.yaml", defaultDocs)] (candidates ⟨none, "/p", "/h"⟩) =
      some ("/p/config.yaml", defaultDocs) by decide)
  exact ⟨h.1, h.2.1 (by decide) (by decide) rfl⟩

theorem updateMergeAndWrite_eq (P : Params) (incoming : Doc) (w : World) :
    updateMergeAndWrite P incoming w =
      ((writeConfig P (umwDocs P incoming w) (readConfig P w).1).1,
       (writeConfig P (umwDocs P incoming w) (readConfig P w).1).2.map (fun _ => incoming)) :=
  rfl

theorem fsLookup_exists_mem {fs : Fs} {p : String} {docs : List Doc}
    (h : fsLookup fs p = some docs) : ∃ e ∈ fs, e.2 = docs := by
  induction fs with
  | nil => simp [fsLookup] at h
  | cons e rest ih =>
    obtain ⟨q, d⟩ := e
    rw [fsLookup] at h
    by_cases hq : q = p
    · rw [if_pos hq] at h
      injection h with h
      exact ⟨(q, d), List.mem_cons_self _ _, h⟩
    · rw [if_neg hq] at h
      obtain ⟨e2, he2, hd⟩ := ih h
      exact ⟨e2, List.mem_cons_of_mem _ he2, hd⟩

theorem FsClean_lookup {fs : Fs} {p : String} {docs : List Doc}
    (hc : FsClean fs) (h : fsLookup fs p = some docs) : ∀ d ∈ docs, DocNoRawKey d := by
  obtain ⟨e, he, hd⟩ := fsLookup_exists_mem h
  intro d hdm
  exact hc e he d (hd ▸ hdm)

theorem mem_fsSet {fs : Fs} {p : String} {docs : List Doc} {e : String × List Doc}
    (h : e ∈ fsSet fs p docs) : e ∈ fs ∨ e.2 = docs := by
  induction fs with
  | nil =>
    rw [fsSet] at h
    right
    rw [List.mem_singleton.mp h]
  | cons e0 rest ih =>
    obtain ⟨q, d0⟩ := e0
    rw [fsSet] at h
    by_cases hq : q = p
    · rw [if_pos hq] at h
      rcases List.mem_cons.mp h with h1 | h2
      · right
        rw [h1]
      · left
        exact List.mem_cons_of_mem _ h2
    · rw [if_neg hq] at h
      rcases List.mem_cons.mp h with h1 | h2
      · left
        rw [h1]
        exact List.mem_cons_self _ _
      · rcases ih h2 with h3 | h4
        · left
          exact List.mem_cons_of_mem _ h3
        · right
          exact h4

theorem FsClean_fsSet {fs : Fs} {p : String} {docs : List Doc}
    (hc : FsClean fs) (hd : ∀ d ∈ docs, DocNoRawKey d) : FsClean (fsSet fs p docs) := by
  intro e he d hdm
  rcases mem_fsSet he with h1 | h2
  · exact hc e h1 d hdm
  · exact hd d (h2 ▸ hdm)

theorem FsClean_fsDelete {fs : Fs} {p : String} (hc : FsClean fs) :
    FsClean (fsDelete fs p) := by
  intro e he
  exact hc e (List.mem_of_mem_filter he)

theorem defaultDocs_clean : ∀ d ∈ defaultDocs, DocNoRawKey d := by decide

theorem readConfig_envFile (P : Params) (w : World) :
    (readConfig P w).1.envFile = w.envFile := by
  unfold readConfig
  cases h : findCandidate w.fs (candidates P) with
  | none => rfl
  | some pd =>
    obtain ⟨p, docs⟩ := pd
    dsimp only
    split
    · split <;> rfl
    · rfl

theorem readConfig_clean (P : Params) (w : World) (hc : FsClean w.fs) :
    FsClean (readConfig P w).1.fs ∧ ∀ d ∈ (readConfig P w).2, DocNoRawKey d := by
  unfold readConfig
  cases h : findCandidate w.fs (candidates P) with
  | none =>
    dsimp only
    exact ⟨FsClean_fsSet hc defaultDocs_clean, defaultDocs_clean⟩
  | some pd =>
    obtain ⟨p, docs⟩ := pd
    have hdocs := FsClean_lookup hc (findCandidate_lookup h)
    dsimp only
    split
    · split
      · exact ⟨FsClean_fsDelete (FsClean_fsSet hc hdocs), hdocs⟩
      · exact ⟨hc, hdocs⟩
    · exact ⟨hc, hdocs⟩

theorem writeConfig_envFile (P : Params) (docs : List Doc) (w : World) :
    (writeConfig P docs w).1.envFile = w.envFile := by
  unfold writeConfig
  split <;> rfl

theorem writeConfig_clean {P : Params} {docs : List Doc} {w : World}
    (hw : FsClean w.fs) (hd : ∀ d ∈ docs, DocNoRawKey d) :
    FsClean (writeConfig P docs w).1.fs := by
  unfold writeConfig
  split
  · exact FsClean_fsSet hw hd
  · exact hw

theorem writeConfig_result (P : Params) (docs : List Doc) (w : World) :
    (writeConfig P docs w).2 = Except.ok () ∨
      (writeConfig P docs w).2 = Except.error CfgError.noLLMDoc := by
  unfold writeConfig
  split
  · left
    rfl
  · right
    rfl

theorem mergeLLM_api_key (d i : Doc) : (mergeLLM d i).api_key = (i.api_key <|> d.api_key) := by
  simp only [mergeLLM, mergeDocs]
  split <;> rfl

theorem mergeLLM_apiKey (d i : Doc) : (mergeLLM d i).apiKey = (i.apiKey <|> d.apiKey) := by
  simp only [mergeLLM, mergeDocs]
  split <;> rfl

theorem mergeLLM_api_key_env (d i : Doc) :
    (mergeLLM d i).api_key_env = (i.api_key_env <|> d.api_key_env) := by
  simp only [mergeLLM, mergeDocs]
  split <;> rfl

theorem mergeLLM_type (d i : Doc) : (mergeLLM d i).type = (i.type <|> d.type) := by
  simp only [mergeLLM, mergeDocs]
  split <;> rfl

theorem mergeLLM_active_model_kept {d i : Doc} (h1 : i.active_model = none)
    (h2 : isTruthy d.active_model = true) : (mergeLLM d i).active_model = d.active_model := by
  simp only [mergeLLM, mergeDocs]
  rw [if_pos ⟨h1, h2⟩]

theorem umwDocs_clean (P : Params) {incoming : Doc} (w : World)
    (hd : ∀ d ∈ (readConfig P w).2, DocNoRawKey d) (hi : DocNoRawKey incoming) :
    ∀ d ∈ umwDocs P incoming w, DocNoRawKey d := by
  have hmap : ∀ d ∈ (readConfig P w).2.map
      (fun d => if d.type == some "llm" then mergeLLM d incoming else d), DocNoRawKey d := by
    intro d hdm
    obtain ⟨d0, hd0, hfd⟩ := List.mem_map.mp hdm
    rw [← hfd]
    by_cases ht : d0.type == some "llm"
    · rw [if_pos ht]
      constructor
      · rw [mergeLLM_api_key, hi.1, (hd d0 hd0).1]
        rfl
      · rw [mergeLLM_apiKey, hi.2, (hd d0 hd0).2]
        rfl
    · rw [if_neg ht]
      exact hd d0 hd0
  intro d hdm
  simp only [umwDocs] at hdm
  by_cases hany : (readConfig P w).2.any (fun d => d.type == some "llm")
  · rw [if_pos hany] at hdm
    exact hmap d hdm
  · rw [if_neg hany] at hdm
    rcases List.mem_append.mp hdm with h1 | h2
    · exact hmap d h1
    · rw [List.mem_singleton.mp h2]
      exact hi

/-- Claim C2: an authorized update with `persistKey = false` leaves the
secrets file untouched, returns the sanitized update (both raw key fields
deleted) or a validation error, and preserves the invariant that no
persisted document carries a raw key field. -/
theorem updateConfig_no_persist_frame (P : Params) (data : Doc) (w : World)
    (hP : data.persistKey = some false) (hClean : FsClean w.fs) :
    (updateLLMConfig P true data w).1.envFile = w.envFile ∧
    FsClean (updateLLMConfig P true data w).1.fs ∧
    (sanitizeNoPersist data).api_key = none ∧
    (sanitizeNoPersist data).apiKey = none ∧
    ((updateLLMConfig P true data w).2 = Except.ok (sanitizeNoPersist data) ∨
      (updateLLMConfig P true data w).2 = Except.error CfgError.noLLMDoc) := by
  have hstep : updateLLMConfig P true data w =
      updateMergeAndWrite P (sanitizeNoPersist data) w := by
    unfold updateLLMConfig
    rw [if_neg (by simp), if_pos hP]
  obtain ⟨hrc, hrd⟩ := readConfig_clean P w hClean
  have hsan : DocNoRawKey (sanitizeNoPersist data) := ⟨rfl, rfl⟩
  have hclean2 := umwDocs_clean P w hrd hsan
  rw [hstep, updateMergeAndWrite_eq]
  refine ⟨?_, ?_, rfl, rfl, ?_⟩
  · dsimp only
    rw [writeConfig_envFile, readConfig_envFile]
  · dsimp only
    exact writeConfig_clean hrc hclean2
  · dsimp only
    rcases writeConfig_result P (umwDocs P (sanitizeNoPersist data) w) (readConfig P w).1 with
      h | h
    · left
      rw [h]
      rfl
    · right
      rw [h]
      rfl

/-- Witness for `updateConfig_no_persist_frame` at a concrete input. -/
theorem updateConfig_no_persist_frame_witness :
    (updateLLMConfig ⟨none, "/p", "/h"⟩ true
        { type := some "llm", persistKey := some false, api_key := some "sk" }
        ⟨[("/h/.wrenai/config.yaml", defaultDocs)], ['X'], true, true⟩).1.envFile = ['X'] ∧
    FsClean (updateLLMConfig ⟨none, "/p", "/h"⟩ true
        { type := some "llm", persistKey := some false, api_key := some "sk" }
        ⟨[("/h/.wrenai/config.yaml", defaultDocs)], ['X'], true, true⟩).1.fs :=
  ⟨(updateConfig_no_persist_frame ⟨none, "/p", "/h"⟩
      { type := some "llm", persistKey := some false, api_key := some "sk" }
      ⟨[("/h/.wrenai/config.yaml", defaultDocs)], ['X'], true, true⟩ (by decide) (by decide)).1,
   (updateConfig_no_persist_frame ⟨none, "/p", "/h"⟩
      { type := some "llm", persistKey := some false, api_key := some "sk" }
      ⟨[("/h/.wrenai/config.yaml", defaultDocs)], ['X'], true, true⟩ (by decide) (by decide)).2.1⟩

theorem fsLookup_fsSet_self (fs : Fs) (p : String) (docs : List Doc) :
    fsLookup (fsSet fs p docs) p = some docs := by
  induction fs with
  | nil => simp [fsSet, fsLookup]
  | cons e rest ih =>
    obtain ⟨q, d0⟩ := e
    rw [fsSet]
    by_cases hq : q = p
    · rw [if_pos hq, fsLookup, if_pos hq]
    · rw [if_neg hq, fsLookup, if_neg hq]
      exact ih

theorem readConfig_set_envFile (P : Params) (w : World) (e : List Char) :
    readConfig P { w with envFile := e } =
      ({ (readConfig P w).1 with envFile := e }, (readConfig P w).2) := by
  unfold readConfig
  dsimp only
  cases h : findCandidate w.fs (candidates P) with
  | none => rfl
  | some pd =>
    obtain ⟨p, docs⟩ := pd
    dsimp only
    by_cases hc : p = defaultConfigPath P ∧ fsLookup w.fs (homedirConfig P) = none
    · rw [if_pos hc, if_pos hc]
      by_cases hm : w.migrateOk = true
      · rw [if_pos hm, if_pos hm]
      · rw [if_neg hm, if_neg hm]
    · rw [if_neg hc, if_neg hc]

theorem writeConfig_success {P : Params} {docs : List Doc} {w : World}
    (h : docs.any (fun d => d.type == some "llm") = true) :
    writeConfig P docs w =
      ({ w with fs := fsSet w.fs (homedirConfig P) docs }, Except.ok ()) := by
  unfold writeConfig
  rw [if_pos h]

theorem umwDocs_get (P : Params) (incoming : Doc) (w : World) {i : Nat} {di : Doc}
    (h1 : (readConfig P w).2.get? i = some di) (h2 : (di.type == some "llm") = true) :
    (umwDocs P incoming w).get? i = some (mergeLLM di incoming) ∧
    (readConfig P w).2.any (fun d => d.type == some "llm") = true := by
  have hmem : di ∈ (readConfig P w).2 := List.get?_mem h1
  have hany : (readConfig P w).2.any (fun d => d.type == some "llm") = true :=
    List.any_eq_true.mpr ⟨di, hmem, h2⟩
  refine ⟨?_, hany⟩
  simp only [umwDocs]
  rw [List.get?_eq_getElem?] at h1
  rw [if_pos hany, List.get?_eq_getElem?, List.getElem?_map, h1]
  simp only [Option.map_some']
  rw [if_pos h2]

theorem updateMergeAndWrite_entry (P : Params) (incoming : Doc) (w : World)
    {i : Nat} {di : Doc}
    (h1 : (readConfig P w).2.get? i = some di)
    (h2 : di.type = some "llm")
    (hty : incoming.type = none ∨ incoming.type = some "llm") :
    (updateMergeAndWrite P incoming w).2 = Except.ok incoming ∧
    (updateMergeAndWrite P incoming w).1.envFile = w.envFile ∧
    ∃ newDocs,
      fsLookup (updateMergeAndWrite P incoming w).1.fs (homedirConfig P) = some newDocs ∧
      newDocs.get? i = some (mergeLLM di incoming) := by
  have h2b : (di.type == some "llm") = true := by
    rw [h2]
    rfl
  obtain ⟨hget, hany⟩ := umwDocs_get P incoming w h1 h2b
  have hmty : ((mergeLLM di incoming).type == some "llm") = true := by
    rw [mergeLLM_type]
    rcases hty with hty | hty
    · rw [hty]
      simpa using h2b
    · rw [hty]
      rfl
  have hany2 : (umwDocs P incoming w).any (fun d => d.type == some "llm") = true :=
    List.any_eq_true.mpr ⟨mergeLLM di incoming, List.get?_mem hget, hmty⟩
  rw [updateMergeAndWrite_eq]
  rw [writeConfig_success hany2]
  dsimp only
  refine ⟨rfl, readConfig_envFile P w, umwDocs P incoming w, ?_, hget⟩
  exact fsLookup_fsSet_self _ _ _

/-- Claim C10: an authorized update with `persistKey = false` has its raw
key fields and also its `api_key_env` field deleted before the merge, so
it can never set or change the persisted `api_key_env`; the merged llm
entry keeps the `api_key_env` of the existing entry, the secrets file is
untouched, and the sanitized update is what the operation returns. -/
theorem updateConfig_no_persist_keeps_env_ref (P : Params) (data : Doc) (w : World)
    {i : Nat} {di : Doc}
    (hP : data.persistKey = some false)
    (hty : data.type = none ∨ data.type = some "llm")
    (h1 : (readConfig P w).2.get? i = some di)
    (h2 : di.type = some "llm") :
    (sanitizeNoPersist data).api_key = none ∧
    (sanitizeNoPersist data).apiKey = none ∧
    (sanitizeNoPersist data).api_key_env = none ∧
    (updateLLMConfig P true data w).1.envFile = w.envFile ∧
    (updateLLMConfig P true data w).2 = Except.ok (sanitizeNoPersist data) ∧
    ∃ newDocs,
      fsLookup (updateLLMConfig P true data w).1.fs (homedirConfig P) = some newDocs ∧
      newDocs.get? i = some (mergeLLM di (sanitizeNoPersist data)) ∧
      (mergeLLM di (sanitizeNoPersist data)).api_key_env = di.api_key_env := by
  have hstep : updateLLMConfig P true data w =
      updateMergeAndWrite P (sanitizeNoPersist data) w := by
    unfold updateLLMConfig
    rw [if_neg (by simp), if_pos hP]
  have htys : (sanitizeNoPersist data).type = none ∨ (sanitizeNoPersist data).type = some "llm" :=
    hty
  obtain ⟨hres, henv, newDocs, hlook, hget⟩ :=
    updateMergeAndWrite_entry P (sanitizeNoPersist data) w h1 h2 htys
  rw [hstep]
  refine ⟨rfl, rfl, rfl, henv, hres, newDocs, hlook, hget, ?_⟩
  rw [mergeLLM_api_key_env]
  rfl

/-- Witness for `updateConfig_no_persist_keeps_env_ref` at a concrete
input. -/
theorem updateConfig_no_persist_keeps_env_ref_witness :
    (sanitizeNoPersist { type := some "llm"
                         persistKey := some false
                         api_key := some "raw"
                         api_key_env := some "EVIL" }).api_key_env = none ∧
    (updateLLMConfig ⟨none, "/p", "/h"⟩ true
        { type := some "llm"
          persistKey := some false
          api_key := some "raw"
          api_key_env := some "EVIL" }
        ⟨[("/h/.wrenai/config.yaml", defaultDocs)], [], true, true⟩).2 =
      Except.ok (sanitizeNoPersist { type := some "llm"
                                     persistKey := some false
                                     api_key := some "raw"
                                     api_key_env := some "EVIL" }) :=
  ⟨(@updateConfig_no_persist_keeps_env_ref ⟨none, "/p", "/h"⟩
      { type := some "llm"
        persistKey := some false
        api_key := some "raw"
        api_key_env := some "EVIL" }
      ⟨[("/h/.wrenai/config.yaml", defaultDocs)], [], true, true⟩ 0 defaultDocs.head!
      (by decide) (by decide) (by decide) (by decide)).2.2.1,
   (@updateConfig_no_persist_keeps_env_ref ⟨none, "/p", "/h"⟩
      { type := some "llm"
        persistKey := some false
        api_key := some "raw"
        api_key_env := some "EVIL" }
      ⟨[("/h/.wrenai/config.yaml", defaultDocs)], [], true, true⟩ 0 defaultDocs.head!
      (by decide) (by decide) (by decide) (by decide)).2.2.2.2.1⟩

/-- Claim C8: given an existing llm entry whose `active_model` is a
nonempty `m1` and an authorized update that does not specify
`active_model`, the merged entry that `updateLLMConfig` produces and
persists retains `active_model = m1`. -/
theorem updateConfig_retains_active_model (P : Params) (data : Doc) (w : World)
    {i : Nat} {di : Doc} {m1 : String}
    (hNoAM : data.active_model = none)
    (hty : data.type = none ∨ data.type = some "llm")
    (hEnv : w.envWriteOk = true)
    (h1 : (readConfig P w).2.get? i = some di)
    (h2 : di.type = some "llm")
    (h3 : di.active_model = some m1)
    (h4 : m1 ≠ "") :
    ∃ incoming newDocs,
      (updateLLMConfig P true data w).2 = Except.ok incoming ∧
      incoming.active_model = none ∧
      fsLookup (updateLLMConfig P true data w).1.fs (homedirConfig P) = some newDocs ∧
      newDocs.get? i = some (mergeLLM di incoming) ∧
      (mergeLLM di incoming).active_model = some m1 := by
  have hdT : isTruthy di.active_model = true := by
    rw [h3]
    simpa [isTruthy] using h4
  by_cases hP : data.persistKey = some false
  · have hstep : updateLLMConfig P true data w =
        updateMergeAndWrite P (sanitizeNoPersist data) w := by
      unfold updateLLMConfig
      rw [if_neg (by simp), if_pos hP]
    obtain ⟨hres, henv, newDocs, hlook, hget⟩ :=
      updateMergeAndWrite_entry P (sanitizeNoPersist data) w h1 h2 hty
    refine ⟨sanitizeNoPersist data, newDocs, by rw [hstep]; exact hres, hNoAM,
      by rw [hstep]; exact hlook, hget, ?_⟩
    rw [mergeLLM_active_model_kept
      (show (sanitizeNoPersist data).active_model = none from hNoAM) hdT, h3]
  · cases hk : keyValOf data with
    | none =>
      have hstep : updateLLMConfig P true data w = updateMergeAndWrite P data w := by
        unfold updateLLMConfig
        rw [if_neg (by simp), if_neg hP, hk]
      obtain ⟨hres, henv, newDocs, hlook, hget⟩ :=
        updateMergeAndWrite_entry P data w h1 h2 hty
      refine ⟨data, newDocs, by rw [hstep]; exact hres, hNoAM,
        by rw [hstep]; exact hlook, hget, ?_⟩
      rw [mergeLLM_active_model_kept hNoAM hdT, h3]
    | some kv =>
      have hstep : updateLLMConfig P true data w =
          updateMergeAndWrite P
            { data with api_key_env := some (chooseEnvVarName data)
                        api_key := none
                        apiKey := none }
            { w with envFile :=
                       writeEnvVarContent (chooseEnvVarName data).toList kv.toList w.envFile } := by
        unfold updateLLMConfig
        rw [if_neg (by simp), if_neg hP, hk]
        dsimp only
        rw [if_pos hEnv]
      have h1b : (readConfig P
          { w with envFile :=
                     writeEnvVarContent (chooseEnvVarName data).toList kv.toList
                       w.envFile }).2.get? i = some di := by
        rw [readConfig_set_envFile]
        exact h1
      obtain ⟨hres, henv, newDocs, hlook, hget⟩ :=
        updateMergeAndWrite_entry P
          { data with api_key_env := some (chooseEnvVarName data)
                      api_key := none
                      apiKey := none }
          { w with envFile :=
                     writeEnvVarContent (chooseEnvVarName data).toList kv.toList w.envFile }
          h1b h2 hty
      refine ⟨{ data with api_key_env := some (chooseEnvVarName data)
                          api_key := none
                          apiKey := none }, newDocs, by rw [hstep]; exact hres, hNoAM,
        by rw [hstep]; exact hlook, hget, ?_⟩
      rw [mergeLLM_active_model_kept
        (show ({ data with api_key_env := some (chooseEnvVarName data)
                           api_key := none
                           apiKey := none } : Doc).active_model = none from hNoAM) hdT, h3]

/-- Witness for `updateConfig_retains_active_model` at a concrete input:
an update carrying a raw key and omitting `active_model` keeps the
existing model of the default document. -/
theorem updateConfig_retains_active_model_witness :
    ∃ incoming newDocs,
      (updateLLMConfig ⟨none, "/p", "/h"⟩ true
          { type := some "llm", provider := some "deepseek", api_key := some "sk1" }
          ⟨[("/h/.wrenai/config.yaml", defaultDocs)], [], true, true⟩).2 =
        Except.ok incoming ∧
      incoming.active_model = none ∧
      fsLookup (updateLLMConfig ⟨none, "/p", "/h"⟩ true
          { type := some "llm", provider := some "deepseek", api_key := some "sk1" }
          ⟨[("/h/.wrenai/config.yaml", defaultDocs)], [], true, true⟩).1.fs
        (homedirConfig ⟨none, "/p", "/h"⟩) = some newDocs ∧
      newDocs.get? 0 = some (mergeLLM defaultDocs.head! incoming) ∧
      (mergeLLM defaultDocs.head! incoming).active_model = some "gpt-4o-mini" :=
  @updateConfig_retains_active_model ⟨none, "/p", "/h"⟩
    { type := some "llm", provider := some "deepseek", api_key := some "sk1" }
    ⟨[("/h/.wrenai/config.yaml", defaultDocs)], [], true, true⟩ 0 defaultDocs.head!
    "gpt-4o-mini" (by decide) (by decide) (by decide) (by decide) (by decide) (by decide)
    (by decide)

theorem writeEnvVar_lookup (n v c : List Char) (hn : EnvKeyWF n) (hv : EnvValWF v) :
    getKV (parseEnvContent (writeEnvVarContent n v c)) n = some v := by
  have good1 : KVGood (setKV (parseEnvContent c) n v) :=
    KVGood_setKV (parseEnvContent_good c) (Or.inr hn) hv
  unfold writeEnvVarContent
  rw [parseEnvContent_serializeEnv good1, getKV_filter_ne_nil hn.1, getKV_setKV_self]

theorem chooseEnvVarName_wf (d : Doc) : EnvKeyWF (chooseEnvVarName d).toList := by
  unfold chooseEnvVarName
  split_ifs <;> decide

theorem updateMergeAndWrite_envFile (P : Params) (incoming : Doc) (w : World) :
    (updateMergeAndWrite P incoming w).1.envFile = w.envFile := by
  rw [updateMergeAndWrite_eq]
  dsimp only
  rw [writeConfig_envFile, readConfig_envFile]

theorem umwDocs_llm_fields (P : Params) {incoming : Doc} (w : World) {e : String}
    (hd : ∀ d ∈ (readConfig P w).2, DocNoRawKey d)
    (hty : incoming.type = some "llm")
    (henv : incoming.api_key_env = some e)
    (hak : incoming.api_key = none) (hbk : incoming.apiKey = none) :
    (∀ d ∈ umwDocs P incoming w, d.type = some "llm" →
      d.api_key_env = some e ∧ d.api_key = none ∧ d.apiKey = none) ∧
    (umwDocs P incoming w).any (fun d => d.type == some "llm") = true := by
  have hmap : ∀ d ∈ (readConfig P w).2.map
      (fun d => if d.type == some "llm" then mergeLLM d incoming else d),
      d.type = some "llm" → d.api_key_env = some e ∧ d.api_key = none ∧ d.apiKey = none := by
    intro d hdm hdt
    obtain ⟨d0, hd0, hfd⟩ := List.mem_map.mp hdm
    by_cases ht : (d0.type == some "llm") = true
    · rw [if_pos ht] at hfd
      rw [← hfd]
      refine ⟨?_, ?_, ?_⟩
      · rw [mergeLLM_api_key_env, henv]
        rfl
      · rw [mergeLLM_api_key, hak, (hd d0 hd0).1]
        rfl
      · rw [mergeLLM_apiKey, hbk, (hd d0 hd0).2]
        rfl
    · rw [if_neg ht] at hfd
      rw [← hfd] at hdt
      exact absurd (show (d0.type == some "llm") = true by rw [hdt]; decide) ht
  constructor
  · intro d hdm hdt
    simp only [umwDocs] at hdm
    by_cases hany : ((readConfig P w).2.any (fun d => d.type == some "llm")) = true
    · rw [if_pos hany] at hdm
      exact hmap d hdm hdt
    · rw [if_neg hany] at hdm
      rcases List.mem_append.mp hdm with h1 | h2
      · exact hmap d h1 hdt
      · rw [List.mem_singleton.mp h2]
        refine ⟨henv, hak, hbk⟩
  · simp only [umwDocs]
    by_cases hany : ((readConfig P w).2.any (fun d => d.type == some "llm")) = true
    · rw [if_pos hany]
      obtain ⟨di, hmem, hdi⟩ := List.any_eq_true.mp hany
      refine List.any_eq_true.mpr ⟨mergeLLM di incoming, ?_, ?_⟩
      · have : (if (di.type == some "llm") = true then mergeLLM di incoming else di) =
            mergeLLM di incoming := by rw [if_pos hdi]
        exact this ▸ List.mem_map_of_mem _ hmem
      · rw [mergeLLM_type, hty]
        rfl
    · rw [if_neg hany]
      refine List.any_eq_true.mpr ⟨incoming, List.mem_append_right _ (List.mem_singleton.mpr rfl),
        by rw [hty]; rfl⟩

/-- Claim C1: an authorized update with `persistKey` not false and a raw
key present picks the environment-variable name by the provider
heuristics, writes the key under that name into the secrets file, and the
persisted llm entries end with `api_key_env` equal to that name and no
raw key field; if the secrets-file write fails the whole update aborts
with an error and the world, documents included, is untouched. -/
theorem updateConfig_persist_key_extraction (P : Params) (data : Doc) (w : World) (kv : String)
    (hPersist : data.persistKey ≠ some false)
    (hKey : keyValOf data = some kv)
    (hType : data.type = some "llm")
    (hClean : FsClean w.fs)
    (hVal : EnvValWF kv.toList) :
    EnvKeyWF (chooseEnvVarName data).toList ∧
    (azureCond data = true → chooseEnvVarName data = "AZURE_OPENAI_API_KEY") ∧
    (azureCond data = false → jsIncludes (providerLower data) "deepseek" = true →
      chooseEnvVarName data = "DEEPSEEK_API_KEY") ∧
    (azureCond data = false → jsIncludes (providerLower data) "deepseek" = false →
      jsIncludes (providerLower data) "openrouter" = true →
      chooseEnvVarName data = "OPENROUTER_API_KEY") ∧
    (azureCond data = false → jsIncludes (providerLower data) "deepseek" = false →
      jsIncludes (providerLower data) "openrouter" = false →
      jsIncludes (providerLower data) "ollama" = true →
      chooseEnvVarName data = "OLLAMA_API_KEY") ∧
    (azureCond data = false → jsIncludes (providerLower data) "deepseek" = false →
      jsIncludes (providerLower data) "openrouter" = false →
      jsIncludes (providerLower data) "ollama" = false →
      (jsIncludes (providerLower data) "google" || jsIncludes (providerLower data) "vertex")
        = true →
      chooseEnvVarName data = "GOOGLE_API_KEY") ∧
    (azureCond data = false → jsIncludes (providerLower data) "deepseek" = false →
      jsIncludes (providerLower data) "openrouter" = false →
      jsIncludes (providerLower data) "ollama" = false →
      (jsIncludes (providerLower data) "google" || jsIncludes (providerLower data) "vertex")
        = false →
      chooseEnvVarName data = "OPENAI_API_KEY") ∧
    (w.envWriteOk = false →
      updateLLMConfig P true data w = (w, Except.error CfgError.secretPersist)) ∧
    (w.envWriteOk = true →
      (updateLLMConfig P true data w).1.envFile =
        writeEnvVarContent (chooseEnvVarName data).toList kv.toList w.envFile ∧
      getKV (parseEnvContent (updateLLMConfig P true data w).1.envFile)
        (chooseEnvVarName data).toList = some kv.toList ∧
      (updateLLMConfig P true data w).2 = Except.ok (persistIncoming data) ∧
      ∃ newDocs,
        fsLookup (updateLLMConfig P true data w).1.fs (homedirConfig P) = some newDocs ∧
        ∀ d ∈ newDocs, d.type = some "llm" →
          d.api_key_env = some (chooseEnvVarName data) ∧
          d.api_key = none ∧ d.apiKey = none) := by
  refine ⟨chooseEnvVarName_wf data, ?_, ?_, ?_, ?_, ?_, ?_, ?_, ?_⟩
  · intro h1
    unfold chooseEnvVarName
    rw [if_pos h1]
  · intro h1 h2
    unfold chooseEnvVarName
    rw [if_neg (by simp [h1]), if_pos h2]
  · intro h1 h2 h3
    unfold chooseEnvVarName
    rw [if_neg (by simp [h1]), if_neg (by simp [h2]), if_pos h3]
  · intro h1 h2 h3 h4
    unfold chooseEnvVarName
    rw [if_neg (by simp [h1]), if_neg (by simp [h2]), if_neg (by simp [h3]), if_pos h4]
  · intro h1 h2 h3 h4 h5
    unfold chooseEnvVarName
    rw [if_neg (by simp [h1]), if_neg (by simp [h2]), if_neg (by simp [h3]),
      if_neg (by simp [h4]), if_pos h5]
  · intro h1 h2 h3 h4 h5
    unfold chooseEnvVarName
    rw [if_neg (by simp [h1]), if_neg (by simp [h2]), if_neg (by simp [h3]),
      if_neg (by simp [h4]), if_neg (by simp [h5])]
  · intro hOk
    unfold updateLLMConfig
    rw [if_neg (by simp), if_neg hPersist, hKey]
    dsimp only
    rw [if_neg (by simp [hOk])]
  · intro hOk
    have hstep : updateLLMConfig P true data w =
        updateMergeAndWrite P (persistIncoming data) (persistWorld data kv w) := by
      unfold updateLLMConfig persistIncoming persistWorld
      rw [if_neg (by simp), if_neg hPersist, hKey]
      dsimp only
      rw [if_pos hOk]
    have hClean2 : FsClean (persistWorld data kv w).fs := hClean
    obtain ⟨hrc, hrd⟩ := readConfig_clean P (persistWorld data kv w) hClean2
    obtain ⟨hfields, hany⟩ := @umwDocs_llm_fields P (persistIncoming data)
      (persistWorld data kv w) (chooseEnvVarName data) hrd hType rfl rfl rfl
    rw [hstep, updateMergeAndWrite_eq, writeConfig_success hany]
    dsimp only
    have henvf : (readConfig P (persistWorld data kv w)).1.envFile =
        writeEnvVarContent (chooseEnvVarName data).toList kv.toList w.envFile :=
      readConfig_envFile P (persistWorld data kv w)
    refine ⟨henvf, ?_, rfl, _, fsLookup_fsSet_self _ _ _, hfields⟩
    rw [henvf]
    exact writeEnvVar_lookup _ _ _ (chooseEnvVarName_wf data) hVal

/-- Witness for `updateConfig_persist_key_extraction` at a concrete
input: a deepseek update with a raw key. -/
theorem updateConfig_persist_key_extraction_witness :
    chooseEnvVarName { type := some "llm", provider := some "deepseek", api_key := some "sk1" }
      = "DEEPSEEK_API_KEY" ∧
    (updateLLMConfig ⟨none, "/p", "/h"⟩ true
        { type := some "llm", provider := some "deepseek", api_key := some "sk1" }
        ⟨[("/h/.wrenai/config.yaml", defaultDocs)], [], true, true⟩).1.envFile =
      writeEnvVarContent "DEEPSEEK_API_KEY".toList "sk1".toList [] :=
  ⟨(updateConfig_persist_key_extraction ⟨none, "/p", "/h"⟩
      { type := some "llm", provider := some "deepseek", api_key := some "sk1" }
      ⟨[("/h/.wrenai/config.yaml", defaultDocs)], [], true, true⟩ "sk1"
      (by decide) (by decide) (by decide) (by decide) (by decide)).2.2.1
      (by decide) (by decide),
   ((updateConfig_persist_key_extraction ⟨none, "/p", "/h"⟩
      { type := some "llm", provider := some "deepseek", api_key := some "sk1" }
      ⟨[("/h/.wrenai/config.yaml", defaultDocs)], [], true, true⟩ "sk1"
      (by decide) (by decide) (by decide) (by decide) (by decide)).2.2.2.2.2.2.2.2 rfl).1⟩

theorem findCandidate_ne_none {fs : Fs} {cands : List String} {p : String} {d : List Doc}
    (hmem : p ∈ cands) (hl : fsLookup fs p = some d) :
    findCandidate fs cands ≠ none := by
  induction cands with
  | nil => simp at hmem
  | cons q rest ih =>
    rw [findCandidate]
    cases hq : fsLookup fs q with
    | some d2 => simp
    | none =>
      dsimp only
      rcases List.mem_cons.mp hmem with h1 | h2
      · rw [← h1, hl] at hq
        exact absurd hq (by simp)
      · exact ih h2

theorem readConfig_noop_of_home (P : Params) (w : World) {ds : List Doc}
    (hHome : fsLookup w.fs (homedirConfig P) = some ds) :
    (readConfig P w).1 = w := by
  have hmem : homedirConfig P ∈ candidates P := by
    unfold candidates
    cases envPathTruthy P <;> simp
  unfold readConfig
  cases h : findCandidate w.fs (candidates P) with
  | none => exact absurd h (findCandidate_ne_none hmem hHome)
  | some pd =>
    obtain ⟨p, docs⟩ := pd
    dsimp only
    rw [if_neg]
    intro hc
    rw [hHome] at hc
    exact absurd hc.2 (by simp)

/-- Claim C7 (amended): when the canonical user-level configuration file
exists — so the shared read path performs neither migration nor default
creation — an authorized `switchLLMNow` leaves the world completely
unchanged (no configuration-document write and no secrets-file write),
and an unavailable adaptor, a missing capability, or a thrown adaptor
error each produce a structured `ok = false` result with an error message
instead of an exception; a successful adaptor call yields `ok = true`. -/
theorem switchLLMNow_frame (P : Params) (data : Doc) (w : World) {ds : List Doc}
    (hHome : fsLookup w.fs (homedirConfig P) = some ds) :
    (∀ adaptor, (switchLLMNow P true data adaptor w).1 = w) ∧
    (switchLLMNow P true data AdaptorBehavior.succeeds w).2 = Except.ok { ok := true } ∧
    (switchLLMNow P true data AdaptorBehavior.missing w).2 =
      Except.ok { ok := false, error := some "Adaptor does not support reinitialization" } ∧
    (switchLLMNow P true data AdaptorBehavior.noCapability w).2 =
      Except.ok { ok := false, error := some "Adaptor does not support reinitialization" } ∧
    (∀ msg, (switchLLMNow P true data (AdaptorBehavior.throws msg) w).2 =
      Except.ok { ok := false, error := some msg }) := by
  have hno := readConfig_noop_of_home P w hHome
  refine ⟨?_, rfl, rfl, rfl, fun msg => rfl⟩
  intro adaptor
  unfold switchLLMNow
  rw [if_neg (by simp)]
  cases adaptor <;> exact hno

/-- Claim C7 counterexample: with an empty filesystem the read path
inside `switchLLMNow` synthesizes and persists a default configuration
document, so an authorized call does perform a configuration-document
write, contradicting the claim that no write ever occurs. -/
theorem switchLLMNow_claim_counterexample :
    (switchLLMNow ⟨none, "/p", "/h"⟩ true {} AdaptorBehavior.succeeds
        ⟨[], [], true, true⟩).1.fs ≠ ([] : Fs) ∧
    (switchLLMNow ⟨none, "/p", "/h"⟩ true {} AdaptorBehavior.succeeds
        ⟨[], [], true, true⟩).1.fs = [("/h/.wrenai/config.yaml", defaultDocs)] := by decide

/-- Witness for `switchLLMNow_frame` at a concrete input. -/
theorem switchLLMNow_frame_witness :
    (switchLLMNow ⟨none, "/p", "/h"⟩ true {} (AdaptorBehavior.throws "boom")
        ⟨[("/h/.wrenai/config.yaml", defaultDocs)], [], true, true⟩).1 =
      ⟨[("/h/.wrenai/config.yaml", defaultDocs)], [], true, true⟩ ∧
    (switchLLMNow ⟨none, "/p", "/h"⟩ true {} (AdaptorBehavior.throws "boom")
        ⟨[("/h/.wrenai/config.yaml", defaultDocs)], [], true, true⟩).2 =
      Except.ok { ok := false, error := some "boom" } :=
  ⟨(@switchLLMNow_frame ⟨none, "/p", "/h"⟩ {}
      ⟨[("/h/.wrenai/config.yaml", defaultDocs)], [], true, true⟩ defaultDocs (by decide)).1
      (AdaptorBehavior.throws "boom"),
   (@switchLLMNow_frame ⟨none, "/p", "/h"⟩ {}
      ⟨[("/h/.wrenai/config.yaml", defaultDocs)], [], true, true⟩ defaultDocs
      (by decide)).2.2.2.2 "boom"⟩

/-- Claim C3 (amended): masking replaces each secret-shaped field (at the
top level and in every element of `models`) whose value is truthy by the
fixed marker, leaves non-truthy secret fields and every non-secret field
(including `api_key_env` and `active_model`) unchanged, and a truthy
secret value that differs from the marker therefore never survives at its
position; the model is a pure function, so the input is never mutated. -/
theorem maskSecrets_spec (d : Doc) :
    ((maskSecrets d).type = d.type ∧
     (maskSecrets d).provider = d.provider ∧
     (maskSecrets d).api_base = d.api_base ∧
     (maskSecrets d).api_version = d.api_version ∧
     (maskSecrets d).api_key_env = d.api_key_env ∧
     (maskSecrets d).active_model = d.active_model ∧
     (maskSecrets d).persistKey = d.persistKey) ∧
    ((maskSecrets d).api_key = maskVal d.api_key ∧
     (maskSecrets d).apiKey = maskVal d.apiKey ∧
     (maskSecrets d).key = maskVal d.key ∧
     (maskSecrets d).secret = maskVal d.secret ∧
     (maskSecrets d).password = maskVal d.password ∧
     (maskSecrets d).token = maskVal d.token) ∧
    ((d.models = none → (maskSecrets d).models = none) ∧
     (∀ ms, d.models = some ms → (maskSecrets d).models = some (ms.map maskModelEntry))) ∧
    (∀ m : ModelEntry,
      (maskModelEntry m).model = m.model ∧
      (maskModelEntry m).api_key = maskVal m.api_key ∧
      (maskModelEntry m).apiKey = maskVal m.apiKey ∧
      (maskModelEntry m).key = maskVal m.key ∧
      (maskModelEntry m).secret = maskVal m.secret ∧
      (maskModelEntry m).password = maskVal m.password ∧
      (maskModelEntry m).token = maskVal m.token) ∧
    (∀ v : Option String, isTruthy v = true → maskVal v = some "*****") ∧
    (∀ v : Option String, isTruthy v = false → maskVal v = v) ∧
    (∀ v : Option String, isTruthy v = true → v ≠ some "*****" → maskVal v ≠ v) := by
  obtain ⟨t, pr, ab, av, ak, bk, ke, am, pk, ms, k2, se, pw, tk⟩ := d
  have hm1 : ∀ v : Option String, isTruthy v = true → maskVal v = some "*****" := by
    intro v h
    unfold maskVal
    rw [if_pos h]
  have hm2 : ∀ v : Option String, isTruthy v = false → maskVal v = v := by
    intro v h
    unfold maskVal
    rw [if_neg (by simp [h])]
  have hm3 : ∀ v : Option String, isTruthy v = true → v ≠ some "*****" → maskVal v ≠ v := by
    intro v h hne
    rw [hm1 v h]
    exact fun he => hne he.symm
  cases ms with
  | none =>
    exact ⟨⟨rfl, rfl, rfl, rfl, rfl, rfl, rfl⟩, ⟨rfl, rfl, rfl, rfl, rfl, rfl⟩,
      ⟨fun _ => rfl, fun ms2 h => absurd h (by simp)⟩,
      fun m => ⟨rfl, rfl, rfl, rfl, rfl, rfl, rfl⟩, hm1, hm2, hm3⟩
  | some msl =>
    refine ⟨⟨rfl, rfl, rfl, rfl, rfl, rfl, rfl⟩, ⟨rfl, rfl, rfl, rfl, rfl, rfl⟩,
      ⟨fun h => absurd h (by simp), fun ms2 h => ?_⟩,
      fun m => ⟨rfl, rfl, rfl, rfl, rfl, rfl, rfl⟩, hm1, hm2, hm3⟩
    injection h with h
    rw [← h]
    rfl

/-- Claim C3 counterexample: for a document whose `api_key` already holds
the redaction marker, the masked structure contains a value equal to the
original secret-field value, so the claim as stated (no value of the
masked structure equals any original secret-field value) is false. -/
theorem maskSecrets_claim_counterexample :
    isTruthy ({ type := some "llm", api_key := some "*****" } : Doc).api_key = true ∧
    (maskSecrets { type := some "llm", api_key := some "*****" }).api_key =
      ({ type := some "llm", api_key := some "*****" } : Doc).api_key := by decide

/-- Witness for `maskSecrets_spec` at a concrete input. -/
theorem maskSecrets_spec_witness :
    (maskSecrets { type := some "llm", api_key := some "s1", api_key_env := some "E" }).api_key =
      maskVal (some "s1") ∧
    maskVal (some "s1") = some "*****" ∧
    maskVal (some "s1") ≠ some "s1" :=
  ⟨(maskSecrets_spec { type := some "llm", api_key := some "s1", api_key_env := some "E" }).2.1.1,
   ((maskSecrets_spec { type := some "llm", api_key := some "s1", api_key_env := some "E" }).2.2.2.2.1 (some "s1") (by decide)),
   ((maskSecrets_spec { type := some "llm", api_key := some "s1", api_key_env := some "E" }).2.2.2.2.2.2 (some "s1") (by decide) (by decide))⟩

/-- Claim C5: the connectivity tester resolves the effective secret with
the precedence payload raw key (`api_key` before `apiKey`), then the
variable named by `api_key_env` looked up in the process environment,
then the fixed fallback list checked in the order Azure, OpenAI,
Deepseek, OpenRouter; when nothing resolves, the call returns an
`ok = false` result with an error message and issues no probe. -/
theorem testLLMConnection_key_resolution (data : Doc) (env : String → Option String) :
    (isTruthy data.api_key = true → resolveTestApiKey data env = data.api_key) ∧
    (isTruthy data.api_key = false → isTruthy data.apiKey = true →
      resolveTestApiKey data env = data.apiKey) ∧
    (keyValOf data = none → isTruthy data.api_key_env = true →
      isTruthy (env (data.api_key_env.getD "")) = true →
      resolveTestApiKey data env = env (data.api_key_env.getD "")) ∧
    (keyValOf data = none → isTruthy data.api_key_env = false →
      resolveTestApiKey data env =
        (if isTruthy (jsOr (env "AZURE_OPENAI_API_KEY") (jsOr (env "OPENAI_API_KEY")
            (jsOr (env "DEEPSEEK_API_KEY") (env "OPENROUTER_API_KEY")))) = true
         then jsOr (env "AZURE_OPENAI_API_KEY") (jsOr (env "OPENAI_API_KEY")
            (jsOr (env "DEEPSEEK_API_KEY") (env "OPENROUTER_API_KEY")))
         else none)) ∧
    (keyValOf data = none → isTruthy (env (data.api_key_env.getD "")) = false →
      resolveTestApiKey data env =
        (if isTruthy (jsOr (env "AZURE_OPENAI_API_KEY") (jsOr (env "OPENAI_API_KEY")
            (jsOr (env "DEEPSEEK_API_KEY") (env "OPENROUTER_API_KEY")))) = true
         then jsOr (env "AZURE_OPENAI_API_KEY") (jsOr (env "OPENAI_API_KEY")
            (jsOr (env "DEEPSEEK_API_KEY") (env "OPENROUTER_API_KEY")))
         else none)) ∧
    (resolveTestApiKey data env = none →
      testLLMConnection data env =
        TestOutcome.fail
          { ok := false, error := some "No API key provided or found in environment" }) := by
  refine ⟨?_, ?_, ?_, ?_, ?_, ?_⟩
  · intro h
    simp [resolveTestApiKey, keyValOf, jsOr, h]
  · intro h1 h2
    simp [resolveTestApiKey, keyValOf, jsOr, h1, h2]
  · intro hk h2 h3
    have hnone : isTruthy none = false := rfl
    simp [resolveTestApiKey, jsOr, hk, h2, h3, hnone]
  · intro hk h2
    have hnone : isTruthy none = false := rfl
    simp [resolveTestApiKey, jsOr, hk, h2, hnone]
  · intro hk h2
    have hnone : isTruthy none = false := rfl
    by_cases h4 : isTruthy data.api_key_env = true
    · simp [resolveTestApiKey, jsOr, hk, h2, h4, hnone]
    · have h4f : isTruthy data.api_key_env = false := by simpa using h4
      simp [resolveTestApiKey, jsOr, hk, h4f, hnone]
  · intro hres
    simp [testLLMConnection, hres]

/-- Witness for `testLLMConnection_key_resolution` at concrete inputs:
with no key anywhere the tester fails without a probe, and a payload raw
key wins the precedence. -/
theorem testLLMConnection_key_resolution_witness :
    testLLMConnection {} (fun _ => none) =
      TestOutcome.fail
        { ok := false, error := some "No API key provided or found in environment" } ∧
    resolveTestApiKey { api_key := some "k7" } (fun _ => none) = some "k7" :=
  ⟨(testLLMConnection_key_resolution {} (fun _ => none)).2.2.2.2.2 (by decide),
   (testLLMConnection_key_resolution { api_key := some "k7" } (fun _ => none)).1 (by decide)⟩
